import Mathlib

/-!
Shallow embedding of the `typed-gql/analyzer` schema analyzer (the core
revision of the module: the factored `schema` / `typeSystem` /
`schemaExtension` / `typeExtension` / `noDuplicate` / `analyzeOperation`
implementation).  JavaScript objects used as string-keyed dictionaries are
modelled as ordered association lists with an update-or-append assignment
(`fset`), matching JS object semantics (assignment overwrites in place,
fresh keys append).  The exception-based `raise`/`unwrap` control flow is
modelled by the `Except` monad: `Except.error` is the `{isError: true}`
branch of the source's result union.
-/

namespace Analyzer

/-- The source's `Error` record: `{isError: true, message}`.  The `isError`
discriminant is represented by the `Except.error` constructor. -/
structure Error where
  message : String
  deriving DecidableEq, Repr

/-- The parser's `OperationType` union `"query" | "mutation" | "subscription"`. -/
inductive OperationType where
  | query
  | mutation
  | subscription
  deriving DecidableEq, Repr

/-- The string a JS template literal produces for an `OperationType` value. -/
def opTypeName : OperationType → String
  | .query => "query"
  | .mutation => "mutation"
  | .subscription => "subscription"

/-- JS template-literal interpolation of a `string | undefined` value:
`undefined` prints as `"undefined"`. -/
def interpOpt : Option String → String
  | none => "undefined"
  | some s => s

/-- The parser's `DirectiveLocation` enum, modelled by its string name. -/
abbrev DirectiveLocation := String

/-- The parser's `Type` node (type references are passed through unexamined
by the analyzer; `Type` is a reserved word in Lean, hence `GType`). -/
inductive GType where
  | named (name : String)
  | listType (ofType : GType)
  | nonNull (ofType : GType)
  deriving DecidableEq, Repr

/-- The parser's `Value` node (values are passed through unexamined). -/
inductive GValue where
  | intValue (n : Int)
  | stringValue (s : String)
  | boolValue (b : Bool)
  | enumValue (s : String)
  | nullValue
  deriving DecidableEq, Repr

/-- Ordered association-list lookup, the JS `obj[key]` read (first binding
wins; our writer `fset` keeps at most one binding per key). -/
def flookup {α β : Type} [DecidableEq α] : List (α × β) → α → Option β
  | [], _ => none
  | (k, v) :: rest, key => if k = key then some v else flookup rest key

/-- JS object assignment `obj[key] = v`: overwrite in place if the key is
present, otherwise append the new key at the end. -/
def fset {α β : Type} [DecidableEq α] : List (α × β) → α → β → List (α × β)
  | [], k, v => [(k, v)]
  | (k', v') :: rest, k, v =>
    if k' = k then (k, v) :: rest else (k', v') :: fset rest k v

/-- JS truthiness of a `string | undefined` map read: `undefined` and the
empty string are falsy. -/
def truthyStr : Option String → Bool
  | none => false
  | some s => !(s == "")

/- ### Parser AST nodes (the `@typed-gql/parser` input shapes, as used by
the analyzer) -/

/-- Parser directive-application argument `{name, value}`. -/
structure PArgument where
  name : String
  value : GValue
  deriving DecidableEq, Repr

/-- Parser `Directive` application node. -/
structure PDirective where
  name : String
  arguments : Option (List PArgument)
  deriving DecidableEq, Repr

/-- Parser input-value (argument) definition node. -/
structure PInputValueDefinition where
  name : String
  description : Option String
  type : GType
  defaultValue : Option GValue
  directives : Option (List PDirective)
  deriving DecidableEq, Repr

/-- The parser's `ArgumentsDefinition`: an ordered list of input values. -/
abbrev ParserArgumentsDefinition := List PInputValueDefinition

/-- Parser field definition node. -/
structure PFieldDefinition where
  description : Option String
  name : String
  argumentsDefinition : Option ParserArgumentsDefinition
  type : GType
  directives : Option (List PDirective)
  deriving DecidableEq, Repr

/-- Parser enum-value definition node. -/
structure PEnumValueDefinition where
  enumValue : String
  description : Option String
  directives : Option (List PDirective)
  deriving DecidableEq, Repr

/-- Parser `RootOperationTypeDefinition` node `{operationType, type}`. -/
structure RootOperationTypeDefinition where
  operationType : OperationType
  type : String
  deriving DecidableEq, Repr

/-- Parser `SchemaDefinition` node. -/
structure SchemaDefinitionNode where
  description : Option String
  rootOperationTypeDefinitions : List RootOperationTypeDefinition
  directives : Option (List PDirective)
  deriving DecidableEq, Repr

/-- Parser `SchemaExtension` node (root-operation list is optional here). -/
structure SchemaExtensionNode where
  rootOperationTypeDefinitions : Option (List RootOperationTypeDefinition)
  directives : Option (List PDirective)
  deriving DecidableEq, Repr

/-- Parser `DirectiveDefinition` node. -/
structure DirectiveDefinitionNode where
  description : Option String
  name : String
  repeatable : Bool
  argumentsDefinition : Option ParserArgumentsDefinition
  directiveLocations : List DirectiveLocation
  deriving DecidableEq, Repr

/-- Parser `ScalarTypeDefinition` node. -/
structure ScalarTypeDefinitionNode where
  name : String
  description : Option String
  directives : Option (List PDirective)
  deriving DecidableEq, Repr

/-- Parser `ObjectTypeDefinition` node. -/
structure ObjectTypeDefinitionNode where
  name : String
  description : Option String
  directives : Option (List PDirective)
  implementsInterfaces : Option (List String)
  fieldsDefinition : Option (List PFieldDefinition)
  deriving DecidableEq, Repr

/-- Parser `InterfaceTypeDefinition` node. -/
structure InterfaceTypeDefinitionNode where
  name : String
  description : Option String
  directives : Option (List PDirective)
  implementsInterfaces : Option (List String)
  fieldsDefinition : Option (List PFieldDefinition)
  deriving DecidableEq, Repr

/-- Parser `UnionTypeDefinition` node. -/
structure UnionTypeDefinitionNode where
  name : String
  description : Option String
  directives : Option (List PDirective)
  unionMemberTypes : Option (List String)
  deriving DecidableEq, Repr

/-- Parser `EnumTypeDefinition` node. -/
structure EnumTypeDefinitionNode where
  name : String
  description : Option String
  directives : Option (List PDirective)
  enumValuesDefinition : Option (List PEnumValueDefinition)
  deriving DecidableEq, Repr

/-- Parser `InputObjectTypeDefinition` node. -/
structure InputObjectTypeDefinitionNode where
  name : String
  description : Option String
  directives : Option (List PDirective)
  inputFieldsDefinition : Option (List PInputValueDefinition)
  deriving DecidableEq, Repr

/-- Parser `TypeDefinition`: the six kinds, discriminated by `typeType`. -/
inductive TypeDefinitionNode where
  | scalar (d : ScalarTypeDefinitionNode)
  | object (d : ObjectTypeDefinitionNode)
  | interface (d : InterfaceTypeDefinitionNode)
  | union (d : UnionTypeDefinitionNode)
  | enum (d : EnumTypeDefinitionNode)
  | inputObject (d : InputObjectTypeDefinitionNode)
  deriving DecidableEq, Repr

/-- The `name` property shared by all six parser type-definition kinds. -/
def typeDefinitionName : TypeDefinitionNode → String
  | .scalar d => d.name
  | .object d => d.name
  | .interface d => d.name
  | .union d => d.name
  | .enum d => d.name
  | .inputObject d => d.name

/-- Parser `ScalarTypeExtension` node. -/
structure ScalarTypeExtension where
  name : String
  directives : Option (List PDirective)
  deriving DecidableEq, Repr

/-- Parser `ObjectTypeExtension` node. -/
structure ObjectTypeExtension where
  name : String
  directives : Option (List PDirective)
  implementsInterfaces : Option (List String)
  fieldsDefinition : Option (List PFieldDefinition)
  deriving DecidableEq, Repr

/-- Parser `InterfaceTypeExtension` node. -/
structure InterfaceTypeExtension where
  name : String
  directives : Option (List PDirective)
  implementsInterfaces : Option (List String)
  fieldsDefinition : Option (List PFieldDefinition)
  deriving DecidableEq, Repr

/-- Parser `UnionTypeExtension` node. -/
structure UnionTypeExtension where
  name : String
  directives : Option (List PDirective)
  unionMemberTypes : Option (List String)
  deriving DecidableEq, Repr

/-- Parser `EnumTypeExtension` node. -/
structure EnumTypeExtension where
  name : String
  directives : Option (List PDirective)
  enumValuesDefinition : Option (List PEnumValueDefinition)
  deriving DecidableEq, Repr

/-- Parser `InputObjectTypeExtension` node. -/
structure InputObjectTypeExtension where
  name : String
  directives : Option (List PDirective)
  inputFieldsDefinition : Option (List PInputValueDefinition)
  deriving DecidableEq, Repr

/-- Parser `TypeExtension`: the six kinds, discriminated by `typeType`. -/
inductive TypeExtensionNode where
  | scalar (e : ScalarTypeExtension)
  | object (e : ObjectTypeExtension)
  | interface (e : InterfaceTypeExtension)
  | union (e : UnionTypeExtension)
  | enum (e : EnumTypeExtension)
  | inputObject (e : InputObjectTypeExtension)
  deriving DecidableEq, Repr

/-- The `name` property shared by all six parser type-extension kinds. -/
def typeExtensionName : TypeExtensionNode → String
  | .scalar e => e.name
  | .object e => e.name
  | .interface e => e.name
  | .union e => e.name
  | .enum e => e.name
  | .inputObject e => e.name

/-- Parser `TypeSystemDefinition`, discriminated by `definitionType`. -/
inductive TypeSystemDefinitionNode where
  | schema (d : SchemaDefinitionNode)
  | directive (d : DirectiveDefinitionNode)
  | type (d : TypeDefinitionNode)
  deriving DecidableEq, Repr

/-- Parser `TypeSystemExtension`, discriminated by `extensionType`. -/
inductive TypeSystemExtensionNode where
  | schema (e : SchemaExtensionNode)
  | type (e : TypeExtensionNode)
  deriving DecidableEq, Repr

/-- Parser `TypeSystemDefinitionOrExtension`, discriminated by `subType`. -/
inductive TypeSystemDefinitionOrExtension where
  | definition (d : TypeSystemDefinitionNode)
  | extension (e : TypeSystemExtensionNode)
  deriving DecidableEq, Repr

/-- Parser `ExecutableDefinition`, discriminated by `subType`.  The
analyzer never reads any further field of these nodes (the executable
branch of `analyzeOperation` is a TODO stub), so the payloads are omitted. -/
inductive ExecutableDefinitionNode where
  | fragment
  | operation
  deriving DecidableEq, Repr

/-- A parser `Document` entry, discriminated by `type`
(`"typeSystem" | "executable"`). -/
inductive DefinitionNode where
  | typeSystem (d : TypeSystemDefinitionOrExtension)
  | executable (d : ExecutableDefinitionNode)
  deriving DecidableEq, Repr

/-- The parser's `Document`: an ordered sequence of definitions. -/
abbrev Document := List DefinitionNode

/- ### Analyzer output model -/

/-- Normalized directive-application argument. -/
structure Argument where
  name : String
  value : GValue
  deriving DecidableEq, Repr

/-- `Arguments`: keyed argument map of one directive application. -/
abbrev Arguments := List (String × Argument)

/-- Normalized directive application. -/
structure Directive where
  name : String
  arguments : Arguments
  deriving DecidableEq, Repr

/-- Normalized input-value definition (directive argument / input field). -/
structure InputValueDefinition where
  name : String
  description : Option String
  type : GType
  defaultValue : Option GValue
  directives : List Directive
  deriving DecidableEq, Repr

/-- `ArgumentsDefinition`: keyed map of input-value definitions. -/
abbrev ArgumentsDefinition := List (String × InputValueDefinition)

/-- Normalized directive definition.  `locations` is the
`DirectiveLocationMap` (`Partial<Record<DirectiveLocation, true>>`). -/
structure DirectiveDefinition where
  description : Option String
  name : String
  argumentsDefinition : ArgumentsDefinition
  repeatable : Bool
  locations : List (DirectiveLocation × Bool)
  deriving DecidableEq, Repr

/-- Normalized field definition. -/
structure FieldDefinition where
  description : Option String
  name : String
  argumentsDefinition : ArgumentsDefinition
  type : GType
  directives : List Directive
  deriving DecidableEq, Repr

/-- `FieldsDefinition`: keyed field map. -/
abbrev FieldsDefinition := List (String × FieldDefinition)

/-- Normalized enum-value definition. -/
structure EnumValueDefinition where
  name : String
  description : Option String
  directives : List Directive
  deriving DecidableEq, Repr

/-- `EnumValuesDefinition`: keyed enum-value map. -/
abbrev EnumValuesDefinition := List (String × EnumValueDefinition)

/-- The analyzer's `TypeDefinition` union: six kinds discriminated by the
`type` tag, each kind carrying `name`, `description`, `directives` plus its
kind-specific payload. -/
inductive TypeDefinition where
  | scalar (name : String) (description : Option String) (directives : List Directive)
  | object (name : String) (description : Option String) (directives : List Directive)
      (implementsInterfaces : List String) (fieldsDefinition : FieldsDefinition)
  | interface (name : String) (description : Option String) (directives : List Directive)
      (implementsInterfaces : List String) (fieldsDefinition : FieldsDefinition)
  | union (name : String) (description : Option String) (directives : List Directive)
      (unionMemberTypes : List String)
  | enum (name : String) (description : Option String) (directives : List Directive)
      (enumValuesDefinition : EnumValuesDefinition)
  | inputObject (name : String) (description : Option String) (directives : List Directive)
      (inputFieldsDefinition : List (String × InputValueDefinition))
  deriving DecidableEq, Repr

/-- The string held by a `TypeDefinition`'s `type` tag. -/
def typeDefinitionKind : TypeDefinition → String
  | .scalar .. => "scalar"
  | .object .. => "object"
  | .interface .. => "interface"
  | .union .. => "union"
  | .enum .. => "enum"
  | .inputObject .. => "inputObject"

/-- The string held by a parser type extension's `typeType` tag. -/
def typeExtensionKind : TypeExtensionNode → String
  | .scalar _ => "scalar"
  | .object _ => "object"
  | .interface _ => "interface"
  | .union _ => "union"
  | .enum _ => "enum"
  | .inputObject _ => "inputObject"

/-- The `fieldsDefinition` of an object/interface `TypeDefinition` (empty
for the other kinds). -/
def fieldsOf : TypeDefinition → FieldsDefinition
  | .object _ _ _ _ f => f
  | .interface _ _ _ _ f => f
  | _ => []

/-- The `implementsInterfaces` of an object/interface `TypeDefinition`
(empty for the other kinds). -/
def implsOf : TypeDefinition → List String
  | .object _ _ _ i _ => i
  | .interface _ _ _ i _ => i
  | _ => []

/-- The successful analyzer output `Schema` (`isError: false` is the
`Except.ok` constructor). -/
structure Schema where
  description : Option String
  rootOperationTypes : List (OperationType × String)
  schemaDirectives : List Directive
  directiveDefinitions : List (String × DirectiveDefinition)
  typeDefinitions : List (String × TypeDefinition)
  deriving DecidableEq, Repr

/-- The mutable `SchemaContext` threaded through the traversal. -/
structure SchemaContext where
  description : Option String
  rootOperationTypes : Option (List (OperationType × String))
  schemaDirectives : List Directive
  directiveDefinitions : List (String × DirectiveDefinition)
  typeDefinitions : List (String × TypeDefinition)
  deriving DecidableEq, Repr

/-- The fresh context `schema` starts from. -/
def initialContext : SchemaContext :=
  { description := none
    rootOperationTypes := none
    schemaDirectives := []
    directiveDefinitions := []
    typeDefinitions := [] }

/- ### Normalizers (`directive`, `inputValuesDefinition`,
`fieldsDefinition`, `noDuplicate`) -/

/-- The argument loop of the source's `directive` function: detects a
duplicate argument name (`if (args[argument.name])`, object truthiness =
presence), otherwise assigns `{name, value}`. -/
def argLoop : List PArgument → Arguments → String → String → Except Error Arguments
  | [], args, _, _ => .ok args
  | a :: rest, args, directiveName, lbl =>
    if (flookup args a.name).isSome then
      .error ⟨"Multiple argument " ++ a.name ++ " on directive " ++ directiveName ++ " on " ++ lbl⟩
    else
      argLoop rest (fset args a.name ⟨a.name, a.value⟩) directiveName lbl

/-- The source's `directive(directive, on)`: normalize one directive
application, building the keyed argument map. -/
def directive (d : PDirective) (lbl : String) : Except Error Directive := do
  let args ← argLoop (d.arguments.getD []) [] d.name lbl
  return ⟨d.name, args⟩

/-- Normalizes a list of directive applications in order (the `.map` of the
source's `directives`, with short-circuiting `raise`). -/
def directiveList : List PDirective → String → Except Error (List Directive)
  | [], _ => .ok []
  | d :: rest, lbl => do
    let x ← directive d lbl
    let xs ← directiveList rest lbl
    return x :: xs

/-- The source's `directives(directives, on)`: absent list means empty. -/
def directives (ds : Option (List PDirective)) (lbl : String) : Except Error (List Directive) :=
  directiveList (ds.getD []) lbl

/-- The loop of the source's `inputValuesDefinition`: duplicate name is
`Multiple argument <name> on <label>`; `type` and `defaultValue` pass through
unexamined. -/
def inputValueLoop : List PInputValueDefinition → ArgumentsDefinition → String →
    Except Error ArgumentsDefinition
  | [], result, _ => .ok result
  | a :: rest, result, lbl =>
    if (flookup result a.name).isSome then
      .error ⟨"Multiple argument " ++ a.name ++ " on " ++ lbl⟩
    else do
      let ds ← directiveList (a.directives.getD []) ("argument on " ++ lbl)
      inputValueLoop rest (fset result a.name ⟨a.name, a.description, a.type, a.defaultValue, ds⟩) lbl

/-- The source's `inputValuesDefinition(definition, on)`. -/
def inputValuesDefinition (defn : Option ParserArgumentsDefinition) (lbl : String) :
    Except Error ArgumentsDefinition :=
  inputValueLoop (defn.getD []) [] lbl

/-- The source's `fieldDefinition(definition, on)`: arguments are
normalized before the field's directives (object-literal evaluation
order). -/
def fieldDefinition (fd : PFieldDefinition) (lbl : String) : Except Error FieldDefinition := do
  let argsDef ← inputValuesDefinition fd.argumentsDefinition lbl
  let ds ← directiveList (fd.directives.getD []) lbl
  return ⟨fd.description, fd.name, argsDef, fd.type, ds⟩

/-- The field-insertion loop shared (textually identical) by the source's
`fieldsDefinition` and by the object/interface extension merger: duplicate
key is `Multiple field definition on <label>`, each new field is normalized
with the label `field <name> on <label>`. -/
def fieldLoop : List PFieldDefinition → FieldsDefinition → String → Except Error FieldsDefinition
  | [], result, _ => .ok result
  | fd :: rest, result, lbl =>
    if (flookup result fd.name).isSome then
      .error ⟨"Multiple field definition on " ++ lbl⟩
    else do
      let f ← fieldDefinition fd ("field " ++ fd.name ++ " on " ++ lbl)
      fieldLoop rest (fset result fd.name f) lbl

/-- The source's `fieldsDefinition(definition, on)`: starts from an empty
map. -/
def fieldsDefinition (defn : List PFieldDefinition) (lbl : String) : Except Error FieldsDefinition :=
  fieldLoop defn [] lbl

/-- The source's `noDuplicate(strs, on)`: fails when `new Set(strs).size`
differs from `strs.length`, i.e. when the list has any repeat; returns the
list itself (not deduplicated). -/
def noDuplicate (strs : List String) (lbl : String) : Except Error (List String) :=
  if strs.dedup.length ≠ strs.length then .error ⟨"Duplicate " ++ lbl⟩ else .ok strs

/- ### Root-operation binding loop (shared by `schemaDefinition` and
`schemaExtension`, textually identical in both) -/

/-- Binds the listed root operations into the accumulated map: a truthy
existing binding (`if (rootOperationTypes[op])`, string truthiness) fails
`Multiple RootOperationTypeDefinition for <op>`; assignment overwrites. -/
def bindRootOps : List RootOperationTypeDefinition → List (OperationType × String) →
    Except Error (List (OperationType × String))
  | [], m => .ok m
  | b :: rest, m =>
    if truthyStr (flookup m b.operationType) then
      .error ⟨"Multiple RootOperationTypeDefinition for " ++ opTypeName b.operationType⟩
    else
      bindRootOps rest (fset m b.operationType b.type)

/- ### Type-kind builders -/

/-- The source's `scalarTypeDefinition`. -/
def scalarTypeDefinition (definition : ScalarTypeDefinitionNode) (ctx : SchemaContext) :
    Except Error SchemaContext := do
  let ds ← directives definition.directives ("type " ++ definition.name ++ " definition")
  let td : TypeDefinition := .scalar definition.name definition.description ds
  return { ctx with typeDefinitions := fset ctx.typeDefinitions definition.name td }

/-- The source's `objectTypeDefinition`.  The `noDuplicate` label
interpolates `definition.description` (not the name) — this is what the
source's template literal reads. -/
def objectTypeDefinition (definition : ObjectTypeDefinitionNode) (ctx : SchemaContext) :
    Except Error SchemaContext := do
  let ds ← directives definition.directives ("type " ++ definition.name ++ " definition")
  let impls ← noDuplicate (definition.implementsInterfaces.getD [])
      ("implements on type " ++ interpOpt definition.description)
  let fields ← match definition.fieldsDefinition with
    | some fl => fieldsDefinition fl ("type " ++ definition.name ++ " definition")
    | none => .ok []
  let td : TypeDefinition := .object definition.name definition.description ds impls fields
  return { ctx with typeDefinitions := fset ctx.typeDefinitions definition.name td }

/-- The source's `interfaceTypeDefinition` (same shape as the object
builder, including the `definition.description` label). -/
def interfaceTypeDefinition (definition : InterfaceTypeDefinitionNode) (ctx : SchemaContext) :
    Except Error SchemaContext := do
  let ds ← directives definition.directives ("type " ++ definition.name ++ " definition")
  let impls ← noDuplicate (definition.implementsInterfaces.getD [])
      ("implements on type " ++ interpOpt definition.description)
  let fields ← match definition.fieldsDefinition with
    | some fl => fieldsDefinition fl ("type " ++ definition.name ++ " definition")
    | none => .ok []
  let td : TypeDefinition := .interface definition.name definition.description ds impls fields
  return { ctx with typeDefinitions := fset ctx.typeDefinitions definition.name td }

/-- The source's `unionTypeDefinition`. -/
def unionTypeDefinition (definition : UnionTypeDefinitionNode) (ctx : SchemaContext) :
    Except Error SchemaContext := do
  let ds ← directives definition.directives ("type " ++ definition.name ++ " definition")
  let members ← noDuplicate (definition.unionMemberTypes.getD [])
      ("type " ++ definition.name ++ " definition")
  let td : TypeDefinition := .union definition.name definition.description ds members
  return { ctx with typeDefinitions := fset ctx.typeDefinitions definition.name td }

/-- The enum-value insertion loop of the source's `enumTypeDefinition`. -/
def enumValueLoop : List PEnumValueDefinition → EnumValuesDefinition → String →
    Except Error EnumValuesDefinition
  | [], m, _ => .ok m
  | ev :: rest, m, typeName =>
    if (flookup m ev.enumValue).isSome then
      .error ⟨"Duplicate enum value " ++ ev.enumValue ++ " on " ++ typeName ++ " definition"⟩
    else do
      let ds ← directiveList (ev.directives.getD []) ("type " ++ typeName ++ " definition")
      enumValueLoop rest (fset m ev.enumValue ⟨ev.enumValue, ev.description, ds⟩) typeName

/-- The source's `enumTypeDefinition`: the value loop runs before the
definition's own directives are normalized. -/
def enumTypeDefinition (definition : EnumTypeDefinitionNode) (ctx : SchemaContext) :
    Except Error SchemaContext := do
  let evs ← enumValueLoop (definition.enumValuesDefinition.getD []) [] definition.name
  let ds ← directives definition.directives ("type " ++ definition.name ++ " definition")
  let td : TypeDefinition := .enum definition.name definition.description ds evs
  return { ctx with typeDefinitions := fset ctx.typeDefinitions definition.name td }

/-- The source's `inputObjectTypeDefinition`. -/
def inputObjectTypeDefinition (definition : InputObjectTypeDefinitionNode) (ctx : SchemaContext) :
    Except Error SchemaContext := do
  let ds ← directives definition.directives ("type " ++ definition.name ++ " definition")
  let ifd ← inputValuesDefinition definition.inputFieldsDefinition
      ("type " ++ definition.name ++ " definition")
  let td : TypeDefinition := .inputObject definition.name definition.description ds ifd
  return { ctx with typeDefinitions := fset ctx.typeDefinitions definition.name td }

/- ### Dispatcher: definitions -/

/-- The source's `schemaDefinition`: a second one (truthy
`context.rootOperationTypes`, and `{}` is truthy) is
`Multiple SchemaDefinition`; otherwise initialize `{}`, bind the listed
root operations, set the description and append schema directives. -/
def schemaDefinition (definition : SchemaDefinitionNode) (ctx : SchemaContext) :
    Except Error SchemaContext :=
  if ctx.rootOperationTypes.isSome then
    .error ⟨"Multiple SchemaDefinition"⟩
  else do
    let m ← bindRootOps definition.rootOperationTypeDefinitions []
    let ds ← directives definition.directives "schema definition"
    return { ctx with
      rootOperationTypes := some m
      description := definition.description
      schemaDirectives := ctx.schemaDirectives ++ ds }

/-- The location loop of the source's `directiveDefinition`: duplicate
location (truthy `directive.locations[loc]`) fails. -/
def locLoop : List DirectiveLocation → List (DirectiveLocation × Bool) → String →
    Except Error (List (DirectiveLocation × Bool))
  | [], m, _ => .ok m
  | l :: rest, m, directiveName =>
    if (flookup m l).getD false then
      .error ⟨"Multiple DirectiveLocation " ++ l ++ " for directive " ++ directiveName⟩
    else
      locLoop rest (fset m l true) directiveName

/-- The source's `directiveDefinition`: duplicate name fails, arguments are
normalized with the label `directive <name>`, then locations accumulate. -/
def directiveDefinition (definition : DirectiveDefinitionNode) (ctx : SchemaContext) :
    Except Error SchemaContext :=
  if (flookup ctx.directiveDefinitions definition.name).isSome then
    .error ⟨"Multiple DirectiveDefinition for " ++ definition.name⟩
  else do
    let argsDef ← inputValuesDefinition definition.argumentsDefinition
        ("directive " ++ definition.name)
    let locs ← locLoop definition.directiveLocations [] definition.name
    let dd : DirectiveDefinition :=
      ⟨definition.description, definition.name, argsDef, definition.repeatable, locs⟩
    return { ctx with directiveDefinitions := fset ctx.directiveDefinitions definition.name dd }

/-- The source's `typeDefinition` dispatcher: the global duplicate-name
check against the single `typeDefinitions` map runs before any kind
builder. -/
def typeDefinition (definition : TypeDefinitionNode) (ctx : SchemaContext) :
    Except Error SchemaContext :=
  if (flookup ctx.typeDefinitions (typeDefinitionName definition)).isSome then
    .error ⟨"Multiple TypeDefinition for " ++ typeDefinitionName definition⟩
  else
    match definition with
    | .scalar d => scalarTypeDefinition d ctx
    | .object d => objectTypeDefinition d ctx
    | .interface d => interfaceTypeDefinition d ctx
    | .union d => unionTypeDefinition d ctx
    | .enum d => enumTypeDefinition d ctx
    | .inputObject d => inputObjectTypeDefinition d ctx

/-- The source's `typeSystemDefinition` dispatcher. -/
def typeSystemDefinition (definition : TypeSystemDefinitionNode) (ctx : SchemaContext) :
    Except Error SchemaContext :=
  match definition with
  | .schema d => schemaDefinition d ctx
  | .directive d => directiveDefinition d ctx
  | .type d => typeDefinition d ctx

/- ### Extension merger -/

/-- The source's `schemaExtension`: lazily initializes the mapping
(`context.rootOperationTypes ??= {}`), binds the extension's (optional)
root-operation list against the cumulative map, appends directives.  Note
the directive label is the literal `schema definition` here too. -/
def schemaExtension (definition : SchemaExtensionNode) (ctx : SchemaContext) :
    Except Error SchemaContext := do
  let m0 := ctx.rootOperationTypes.getD []
  let m ← bindRootOps (definition.rootOperationTypeDefinitions.getD []) m0
  let ds ← directives definition.directives "schema definition"
  return { ctx with
    rootOperationTypes := some m
    schemaDirectives := ctx.schemaDirectives ++ ds }

/-- The source's `scalarTypeExtension`: kind check, then append
directives. -/
def scalarTypeExtension (definition : ScalarTypeExtension) (td : TypeDefinition) :
    Except Error TypeDefinition :=
  match td with
  | .scalar name desc dirs => do
    let ds ← directives definition.directives ("type " ++ definition.name ++ " extension")
    return .scalar name desc (dirs ++ ds)
  | _ => .error ⟨"Type extension for type with different type " ++ definition.name⟩

/-- The source's `objectTypeExtension`: kind check; re-run `noDuplicate`
over the accumulated-plus-new interfaces; insert each new field against the
existing map (the error and label interpolate `definition.type`, which for
these nodes is the literal string `typeSystem`); append directives. -/
def objectTypeExtension (definition : ObjectTypeExtension) (td : TypeDefinition) :
    Except Error TypeDefinition :=
  match td with
  | .object name desc dirs impls fields => do
    let impls' ← noDuplicate (impls ++ definition.implementsInterfaces.getD [])
        ("implements on type " ++ definition.name ++ " extension")
    let fields' ← fieldLoop (definition.fieldsDefinition.getD []) fields "type typeSystem extension"
    let ds ← directives definition.directives ("type " ++ definition.name ++ " extension")
    return .object name desc (dirs ++ ds) impls' fields'
  | _ => .error ⟨"Type extension for type with different type " ++ definition.name⟩

/-- The source's `interfaceTypeExtension` (same shape as the object
merger). -/
def interfaceTypeExtension (definition : InterfaceTypeExtension) (td : TypeDefinition) :
    Except Error TypeDefinition :=
  match td with
  | .interface name desc dirs impls fields => do
    let impls' ← noDuplicate (impls ++ definition.implementsInterfaces.getD [])
        ("implements on type " ++ definition.name ++ " extension")
    let fields' ← fieldLoop (definition.fieldsDefinition.getD []) fields "type typeSystem extension"
    let ds ← directives definition.directives ("type " ++ definition.name ++ " extension")
    return .interface name desc (dirs ++ ds) impls' fields'
  | _ => .error ⟨"Type extension for type with different type " ++ definition.name⟩

/-- The source's `unionTypeExtension`: directives are appended before the
member-list recheck (source statement order). -/
def unionTypeExtension (definition : UnionTypeExtension) (td : TypeDefinition) :
    Except Error TypeDefinition :=
  match td with
  | .union name desc dirs members => do
    let ds ← directives definition.directives ("type " ++ definition.name ++ " extension")
    let members' ← noDuplicate (members ++ definition.unionMemberTypes.getD [])
        ("type " ++ definition.name ++ " extension")
    return .union name desc (dirs ++ ds) members'
  | _ => .error ⟨"Type extension for type with different type " ++ definition.name⟩

/-- The enum-value insertion loop of the source's `enumTypeExtension`. -/
def enumValueExtLoop : List PEnumValueDefinition → EnumValuesDefinition → String →
    Except Error EnumValuesDefinition
  | [], m, _ => .ok m
  | ev :: rest, m, typeName =>
    if (flookup m ev.enumValue).isSome then
      .error ⟨"Duplicate enum value " ++ ev.enumValue ++ " on " ++ typeName ++ " extension"⟩
    else do
      let ds ← directiveList (ev.directives.getD []) ("type " ++ typeName ++ " extension")
      enumValueExtLoop rest (fset m ev.enumValue ⟨ev.enumValue, ev.description, ds⟩) typeName

/-- The source's `enumTypeExtension`. -/
def enumTypeExtension (definition : EnumTypeExtension) (td : TypeDefinition) :
    Except Error TypeDefinition :=
  match td with
  | .enum name desc dirs evs => do
    let evs' ← enumValueExtLoop (definition.enumValuesDefinition.getD []) evs definition.name
    let ds ← directives definition.directives ("type " ++ definition.name ++ " extension")
    return .enum name desc (dirs ++ ds) evs'
  | _ => .error ⟨"Type extension for type with different type " ++ definition.name⟩

/-- The input-field insertion loop of the source's
`inputObjectTypeExtension`. -/
def inputFieldExtLoop : List PInputValueDefinition → List (String × InputValueDefinition) →
    String → Except Error (List (String × InputValueDefinition))
  | [], m, _ => .ok m
  | a :: rest, m, typeName =>
    if (flookup m a.name).isSome then
      .error ⟨"Multiple argument " ++ a.name ++ " on type " ++ typeName ++ " extension"⟩
    else do
      let ds ← directiveList (a.directives.getD []) ("argument on type " ++ typeName ++ " extension")
      inputFieldExtLoop rest (fset m a.name ⟨a.name, a.description, a.type, a.defaultValue, ds⟩)
        typeName

/-- The source's `inputObjectTypeExtension`. -/
def inputObjectTypeExtension (definition : InputObjectTypeExtension) (td : TypeDefinition) :
    Except Error TypeDefinition :=
  match td with
  | .inputObject name desc dirs ifd => do
    let ifd' ← inputFieldExtLoop (definition.inputFieldsDefinition.getD []) ifd definition.name
    let ds ← directives definition.directives ("type " ++ definition.name ++ " extension")
    return .inputObject name desc (dirs ++ ds) ifd'
  | _ => .error ⟨"Type extension for type with different type " ++ definition.name⟩

/-- The source's `typeExtension`: a missing prior definition (falsy lookup)
is `Type extension before type definition for type <name>`; otherwise the
kind handler merges destructively into the shared entry (modelled by
writing the merged record back at the same key). -/
def typeExtension (definition : TypeExtensionNode) (ctx : SchemaContext) :
    Except Error SchemaContext :=
  match flookup ctx.typeDefinitions (typeExtensionName definition) with
  | none =>
    .error ⟨"Type extension before type definition for type " ++ typeExtensionName definition⟩
  | some td => do
    let td' ←
      match definition with
      | .scalar e => scalarTypeExtension e td
      | .object e => objectTypeExtension e td
      | .interface e => interfaceTypeExtension e td
      | .union e => unionTypeExtension e td
      | .enum e => enumTypeExtension e td
      | .inputObject e => inputObjectTypeExtension e td
    return { ctx with typeDefinitions := fset ctx.typeDefinitions (typeExtensionName definition) td' }

/-- The source's `typeSystemExtension` dispatcher. -/
def typeSystemExtension (definition : TypeSystemExtensionNode) (ctx : SchemaContext) :
    Except Error SchemaContext :=
  match definition with
  | .schema e => schemaExtension e ctx
  | .type e => typeExtension e ctx

/-- The source's `typeSystem` dispatcher. -/
def typeSystem (definition : TypeSystemDefinitionOrExtension) (ctx : SchemaContext) :
    Except Error SchemaContext :=
  match definition with
  | .definition d => typeSystemDefinition d ctx
  | .extension e => typeSystemExtension e ctx

/- ### Driver -/

/-- One iteration of the document loop in the source's `schema`: an
executable definition raises `ExecutableDocument in Schema`. -/
def processOne (definition : DefinitionNode) (ctx : SchemaContext) :
    Except Error SchemaContext :=
  match definition with
  | .typeSystem d => typeSystem d ctx
  | .executable _ => .error ⟨"ExecutableDocument in Schema"⟩

/-- The document loop of the source's `schema`, short-circuiting on the
first raised error. -/
def processDocument : Document → SchemaContext → Except Error SchemaContext
  | [], ctx => .ok ctx
  | d :: rest, ctx =>
    match processOne d ctx with
    | .error e => .error e
    | .ok ctx' => processDocument rest ctx'

/-- The final freeze of the context into the output `Schema`
(`rootOperationTypes: context.rootOperationTypes ?? {}` — note the core
revision returns an empty mapping here rather than failing). -/
def mkSchema (ctx : SchemaContext) : Schema :=
  { description := ctx.description
    rootOperationTypes := ctx.rootOperationTypes.getD []
    schemaDirectives := ctx.schemaDirectives
    directiveDefinitions := ctx.directiveDefinitions
    typeDefinitions := ctx.typeDefinitions }

/-- The source's `schema(document)`. -/
def schema (document : Document) : Except Error Schema :=
  match processDocument document initialContext with
  | .error e => .error e
  | .ok ctx => .ok (mkSchema ctx)

/-- The exported `analyzeSchema`: the try/catch around `unwrap(schema(...))`
converts the raised `ParseError` back into the error value, which in the
`Except` model is the identity. -/
def analyzeSchema (document : Document) : Except Error Schema :=
  schema document

/- ### Executable-document analyzer (`analyzeOperation`) -/

/-- A selection-set item of the operation model (declared by the source,
never constructed: the executable branch is a TODO stub). -/
inductive SelectionSetItem where
  | field (directives : List Directive) (aliasName : Option String) (name : String)
      (arguments : Arguments) (selectionSet : List SelectionSetItem)
  | fragmentSpread (directives : List Directive) (name : String)
  | inlineFragment (directives : List Directive) (typeCondition : Option String)
      (selectionSet : List SelectionSetItem)

/-- The operation model's `Fragment` (declared, never constructed). -/
structure Fragment where
  name : String
  typeCondition : String
  directives : List Directive
  selectionSet : List SelectionSetItem

/-- The operation model's `OperationItem` (declared, never constructed). -/
structure OperationItem where
  type : Option OperationType
  name : Option String
  variableDefinitions : List (String × InputValueDefinition)
  directives : List Directive
  selectionSet : List SelectionSetItem

/-- The successful `analyzeOperation` output. -/
structure Operation where
  fragments : List (String × Fragment)
  operations : List (String × OperationItem)

/-- The mutable `OperationContext`. -/
structure OperationContext where
  fragments : List (String × Fragment)
  operations : List (String × OperationItem)

/-- The fresh operation context. -/
def initialOperationContext : OperationContext :=
  { fragments := [], operations := [] }

/-- The source's `executable`: a TODO stub that switches on the subtype and
does nothing. -/
def executable (definition : ExecutableDefinitionNode) (ctx : OperationContext) :
    Except Error OperationContext :=
  match definition with
  | .fragment => .ok ctx
  | .operation => .ok ctx

/-- One iteration of the document loop in the source's `operation`: a
type-system entry raises `TypeSystemDefinitionOrExtension in Operation`. -/
def processOperationOne (definition : DefinitionNode) (ctx : OperationContext) :
    Except Error OperationContext :=
  match definition with
  | .typeSystem _ => .error ⟨"TypeSystemDefinitionOrExtension in Operation"⟩
  | .executable e => executable e ctx

/-- The document loop of the source's `operation`. -/
def processOperationDocument : Document → OperationContext → Except Error OperationContext
  | [], ctx => .ok ctx
  | d :: rest, ctx =>
    match processOperationOne d ctx with
    | .error e => .error e
    | .ok ctx' => processOperationDocument rest ctx'

/-- The source's `operation(document)`. -/
def operation (document : Document) : Except Error Operation :=
  match processOperationDocument document initialOperationContext with
  | .error e => .error e
  | .ok ctx => .ok ⟨ctx.fragments, ctx.operations⟩

/-- The exported `analyzeOperation` (try/catch identity, as for
`analyzeSchema`). -/
def analyzeOperation (document : Document) : Except Error Operation :=
  operation document

/-- Whether a document entry is a `TypeDefinition` (of any kind) with the
given name. -/
def definesTypeNamed (d : DefinitionNode) (n : String) : Bool :=
  match d with
  | .typeSystem (.definition (.type td)) => typeDefinitionName td == n
  | _ => false

/-- The declared field names of an object-type extension. -/
def extensionFieldNames (e : ObjectTypeExtension) : List String :=
  (e.fieldsDefinition.getD []).map (·.name)

/-- Pure normalization of an extension's field list (proof helper: the
values `fieldLoop` inserts, independent of the accumulated map). -/
def normFields : List PFieldDefinition → String → Except Error (List (String × FieldDefinition))
  | [], _ => .ok []
  | fd :: rest, lbl => do
    let f ← fieldDefinition fd ("field " ++ fd.name ++ " on " ++ lbl)
    let xs ← normFields rest lbl
    return (fd.name, f) :: xs


/- ### Association-list lemmas -/

theorem flookup_fset_self {α β : Type} [DecidableEq α] (m : List (α × β)) (k : α) (v : β) :
    flookup (fset m k v) k = some v := by
  induction m with
  | nil => simp [fset, flookup]
  | cons p rest ih =>
    obtain ⟨k', v'⟩ := p
    by_cases h : k' = k
    · simp [fset, h, flookup]
    · simp [fset, h, flookup, ih]

theorem flookup_fset_ne {α β : Type} [DecidableEq α] (m : List (α × β)) (k k' : α) (v : β)
    (h : k' ≠ k) : flookup (fset m k v) k' = flookup m k' := by
  induction m with
  | nil =>
    simp only [fset, flookup]
    rw [if_neg (fun hh => h hh.symm)]
  | cons p rest ih =>
    obtain ⟨k₀, v₀⟩ := p
    by_cases h0 : k₀ = k
    · subst h0
      simp only [fset, if_pos rfl, flookup]
      rw [if_neg (fun hh => h hh.symm), if_neg (fun hh => h hh.symm)]
    · simp only [fset, if_neg h0, flookup, ih]

theorem isSome_flookup_fset {α β : Type} [DecidableEq α] (m : List (α × β)) (k k' : α) (v : β)
    (h : (flookup m k').isSome) : (flookup (fset m k v) k').isSome := by
  by_cases hk : k' = k
  · subst hk; simp [flookup_fset_self]
  · rwa [flookup_fset_ne m k k' v hk]

theorem fset_eq_append {α β : Type} [DecidableEq α] (m : List (α × β)) (k : α) (v : β)
    (h : flookup m k = none) : fset m k v = m ++ [(k, v)] := by
  induction m with
  | nil => simp [fset]
  | cons p rest ih =>
    obtain ⟨k₀, v₀⟩ := p
    simp only [flookup] at h
    by_cases h0 : k₀ = k
    · simp [h0] at h
    · simp [h0] at h
      simp [fset, h0, ih h]

theorem flookup_append {α β : Type} [DecidableEq α] (m₁ m₂ : List (α × β)) (k : α) :
    flookup (m₁ ++ m₂) k =
      match flookup m₁ k with
      | some v => some v
      | none => flookup m₂ k := by
  induction m₁ with
  | nil => simp [flookup]
  | cons p rest ih =>
    obtain ⟨k₀, v₀⟩ := p
    by_cases h0 : k₀ = k
    · simp [flookup, h0]
    · simp [flookup, h0, ih]

theorem flookup_eq_none_of_not_mem {β : Type} (m : List (String × β)) (k : String)
    (h : k ∉ m.map Prod.fst) : flookup m k = none := by
  induction m with
  | nil => simp [flookup]
  | cons p rest ih =>
    obtain ⟨k₀, v₀⟩ := p
    simp only [List.map_cons, List.mem_cons] at h
    push_neg at h
    simp only [flookup]
    rw [if_neg (fun hh => h.1 hh.symm)]
    exact ih h.2

theorem mem_of_flookup_isSome {β : Type} (m : List (String × β)) (k : String)
    (h : (flookup m k).isSome) : k ∈ m.map Prod.fst := by
  by_contra hmem
  rw [flookup_eq_none_of_not_mem m k hmem] at h
  simp at h

/- ### Driver composition lemmas -/

theorem processDocument_append_of_ok (pre l₂ : Document) (c ctx : SchemaContext)
    (h : processDocument pre c = .ok ctx) :
    processDocument (pre ++ l₂) c = processDocument l₂ ctx := by
  induction pre generalizing c with
  | nil => simp [processDocument] at h; simp [h]
  | cons d rest ih =>
    simp only [processDocument] at h ⊢
    cases hp : processOne d c with
    | error e => rw [hp] at h; simp at h
    | ok c' => rw [hp] at h; simp at h ⊢; exact ih c' h

theorem processDocument_ok_split (l₁ l₂ : Document) (c ctx : SchemaContext)
    (h : processDocument (l₁ ++ l₂) c = .ok ctx) :
    ∃ cmid, processDocument l₁ c = .ok cmid ∧ processDocument l₂ cmid = .ok ctx := by
  induction l₁ generalizing c with
  | nil => exact ⟨c, rfl, by simpa [processDocument] using h⟩
  | cons d rest ih =>
    simp only [List.cons_append, processDocument] at h ⊢
    cases hp : processOne d c with
    | error e => rw [hp] at h; simp at h
    | ok c' =>
      rw [hp] at h
      exact ih c' h

theorem processDocument_cons_error (d : DefinitionNode) (rest : Document) (ctx : SchemaContext)
    (e : Error) (h : processOne d ctx = .error e) :
    processDocument (d :: rest) ctx = .error e := by
  simp [processDocument, h]

theorem analyzeSchema_error_of_process (doc : Document) (e : Error)
    (h : processDocument doc initialContext = .error e) :
    analyzeSchema doc = .error e := by
  simp [analyzeSchema, schema, h]

theorem analyzeSchema_ok_of_process (doc : Document) (ctx : SchemaContext)
    (h : processDocument doc initialContext = .ok ctx) :
    analyzeSchema doc = .ok (mkSchema ctx) := by
  simp [analyzeSchema, schema, h]


/- ### Except bind helpers -/

theorem except_bind_ok {ε α β : Type} (a : α) (f : α → Except ε β) :
    ((Except.ok a : Except ε α) >>= f) = f a := rfl

theorem except_bind_error {ε α β : Type} (e : ε) (f : α → Except ε β) :
    ((Except.error e : Except ε α) >>= f) = Except.error e := rfl

theorem except_pure {ε α : Type} (a : α) : (pure a : Except ε α) = Except.ok a := rfl

theorem except_bind_ok_inv {ε α β : Type} {x : Except ε α} {f : α → Except ε β} {b : β}
    (h : (x >>= f) = .ok b) : ∃ a, x = .ok a ∧ f a = .ok b := by
  cases x with
  | error e => rw [except_bind_error] at h; cases h
  | ok a => exact ⟨a, rfl, by rwa [except_bind_ok] at h⟩

/- ### Step inversion lemmas -/

theorem schemaDefinition_ok_inv (d : SchemaDefinitionNode) (ctx ctx' : SchemaContext)
    (h : schemaDefinition d ctx = .ok ctx') :
    ctx.rootOperationTypes = none ∧ ctx'.rootOperationTypes.isSome = true ∧
    ctx'.typeDefinitions = ctx.typeDefinitions ∧
    ctx'.directiveDefinitions = ctx.directiveDefinitions := by
  unfold schemaDefinition at h
  split at h
  · cases h
  · rename_i hnone
    obtain ⟨m, hm, h⟩ := except_bind_ok_inv h
    obtain ⟨ds, hds, h⟩ := except_bind_ok_inv h
    rw [except_pure] at h
    cases h
    exact ⟨Option.not_isSome_iff_eq_none.mp hnone, rfl, rfl, rfl⟩

theorem schemaExtension_ok_inv (e : SchemaExtensionNode) (ctx ctx' : SchemaContext)
    (h : schemaExtension e ctx = .ok ctx') :
    ctx'.rootOperationTypes.isSome = true ∧
    ctx'.typeDefinitions = ctx.typeDefinitions ∧
    ctx'.directiveDefinitions = ctx.directiveDefinitions := by
  unfold schemaExtension at h
  obtain ⟨m, hm, h⟩ := except_bind_ok_inv h
  obtain ⟨ds, hds, h⟩ := except_bind_ok_inv h
  rw [except_pure] at h
  cases h
  exact ⟨rfl, rfl, rfl⟩

theorem directiveDefinition_ok_inv (d : DirectiveDefinitionNode) (ctx ctx' : SchemaContext)
    (h : directiveDefinition d ctx = .ok ctx') :
    ctx'.rootOperationTypes = ctx.rootOperationTypes ∧
    ctx'.typeDefinitions = ctx.typeDefinitions := by
  unfold directiveDefinition at h
  split at h
  · cases h
  · obtain ⟨args, ha, h⟩ := except_bind_ok_inv h
    obtain ⟨locs, hl, h⟩ := except_bind_ok_inv h
    rw [except_pure] at h
    cases h
    exact ⟨rfl, rfl⟩

theorem scalarTypeDefinition_ok_inv2 (d : ScalarTypeDefinitionNode) (ctx ctx' : SchemaContext)
    (h : scalarTypeDefinition d ctx = .ok ctx') :
    ∃ v, ctx' = { ctx with typeDefinitions := fset ctx.typeDefinitions d.name v } := by
  unfold scalarTypeDefinition at h
  obtain ⟨ds, hd, h⟩ := except_bind_ok_inv h
  rw [except_pure] at h
  cases h
  exact ⟨_, rfl⟩

theorem objectTypeDefinition_ok_inv (d : ObjectTypeDefinitionNode) (ctx ctx' : SchemaContext)
    (h : objectTypeDefinition d ctx = .ok ctx') :
    ∃ v, ctx' = { ctx with typeDefinitions := fset ctx.typeDefinitions d.name v } := by
  unfold objectTypeDefinition at h
  obtain ⟨ds, hd, h⟩ := except_bind_ok_inv h
  obtain ⟨impls, hi, h⟩ := except_bind_ok_inv h
  cases hf : d.fieldsDefinition <;> simp only [hf] at h <;>
    obtain ⟨fields, hfd, h⟩ := except_bind_ok_inv h <;>
    rw [except_pure] at h <;> cases h <;> exact ⟨_, rfl⟩

theorem interfaceTypeDefinition_ok_inv (d : InterfaceTypeDefinitionNode) (ctx ctx' : SchemaContext)
    (h : interfaceTypeDefinition d ctx = .ok ctx') :
    ∃ v, ctx' = { ctx with typeDefinitions := fset ctx.typeDefinitions d.name v } := by
  unfold interfaceTypeDefinition at h
  obtain ⟨ds, hd, h⟩ := except_bind_ok_inv h
  obtain ⟨impls, hi, h⟩ := except_bind_ok_inv h
  cases hf : d.fieldsDefinition <;> simp only [hf] at h <;>
    obtain ⟨fields, hfd, h⟩ := except_bind_ok_inv h <;>
    rw [except_pure] at h <;> cases h <;> exact ⟨_, rfl⟩

theorem unionTypeDefinition_ok_inv (d : UnionTypeDefinitionNode) (ctx ctx' : SchemaContext)
    (h : unionTypeDefinition d ctx = .ok ctx') :
    ∃ v, ctx' = { ctx with typeDefinitions := fset ctx.typeDefinitions d.name v } := by
  unfold unionTypeDefinition at h
  obtain ⟨ds, hd, h⟩ := except_bind_ok_inv h
  obtain ⟨members, hm, h⟩ := except_bind_ok_inv h
  rw [except_pure] at h
  cases h
  exact ⟨_, rfl⟩

theorem enumTypeDefinition_ok_inv (d : EnumTypeDefinitionNode) (ctx ctx' : SchemaContext)
    (h : enumTypeDefinition d ctx = .ok ctx') :
    ∃ v, ctx' = { ctx with typeDefinitions := fset ctx.typeDefinitions d.name v } := by
  unfold enumTypeDefinition at h
  obtain ⟨evs, he, h⟩ := except_bind_ok_inv h
  obtain ⟨ds, hd, h⟩ := except_bind_ok_inv h
  rw [except_pure] at h
  cases h
  exact ⟨_, rfl⟩

theorem inputObjectTypeDefinition_ok_inv (d : InputObjectTypeDefinitionNode)
    (ctx ctx' : SchemaContext) (h : inputObjectTypeDefinition d ctx = .ok ctx') :
    ∃ v, ctx' = { ctx with typeDefinitions := fset ctx.typeDefinitions d.name v } := by
  unfold inputObjectTypeDefinition at h
  obtain ⟨ds, hd, h⟩ := except_bind_ok_inv h
  obtain ⟨ifd, hi, h⟩ := except_bind_ok_inv h
  rw [except_pure] at h
  cases h
  exact ⟨_, rfl⟩

theorem typeDefinition_ok_inv (dn : TypeDefinitionNode) (ctx ctx' : SchemaContext)
    (h : typeDefinition dn ctx = .ok ctx') :
    (flookup ctx.typeDefinitions (typeDefinitionName dn)).isSome = false ∧
    ∃ v, ctx' = { ctx with
      typeDefinitions := fset ctx.typeDefinitions (typeDefinitionName dn) v } := by
  unfold typeDefinition at h
  split at h
  · cases h
  · rename_i hnone
    refine ⟨by simpa using hnone, ?_⟩
    cases dn with
    | scalar d => exact scalarTypeDefinition_ok_inv2 d ctx ctx' h
    | object d => exact objectTypeDefinition_ok_inv d ctx ctx' h
    | interface d => exact interfaceTypeDefinition_ok_inv d ctx ctx' h
    | union d => exact unionTypeDefinition_ok_inv d ctx ctx' h
    | enum d => exact enumTypeDefinition_ok_inv d ctx ctx' h
    | inputObject d => exact inputObjectTypeDefinition_ok_inv d ctx ctx' h

theorem typeExtension_ok_inv (e : TypeExtensionNode) (ctx ctx' : SchemaContext)
    (h : typeExtension e ctx = .ok ctx') :
    (flookup ctx.typeDefinitions (typeExtensionName e)).isSome = true ∧
    ∃ v, ctx' = { ctx with
      typeDefinitions := fset ctx.typeDefinitions (typeExtensionName e) v } := by
  unfold typeExtension at h
  cases hl : flookup ctx.typeDefinitions (typeExtensionName e) with
  | none => simp only [hl] at h; cases h
  | some td =>
    simp only [hl] at h
    refine ⟨rfl, ?_⟩
    cases e <;> simp only [] at h <;>
      obtain ⟨td', htd, h⟩ := except_bind_ok_inv h <;>
      rw [except_pure] at h <;> cases h <;> exact ⟨_, rfl⟩

/- ### Monotonicity of the traversal state -/

theorem processOne_mono (d : DefinitionNode) (ctx ctx' : SchemaContext) (n : String)
    (h : processOne d ctx = .ok ctx') :
    ((flookup ctx.typeDefinitions n).isSome → (flookup ctx'.typeDefinitions n).isSome) ∧
    (ctx.rootOperationTypes.isSome → ctx'.rootOperationTypes.isSome) := by
  cases d with
  | executable e => cases h
  | typeSystem t =>
    cases t with
    | definition td =>
      cases td with
      | schema s =>
        obtain ⟨_, hroot, htd, _⟩ := schemaDefinition_ok_inv s ctx ctx' h
        exact ⟨fun hs => htd ▸ hs, fun _ => hroot⟩
      | directive dd =>
        obtain ⟨hroot, htd⟩ := directiveDefinition_ok_inv dd ctx ctx' h
        exact ⟨fun hs => htd ▸ hs, fun hs => hroot ▸ hs⟩
      | type dn =>
        obtain ⟨_, v, hctx⟩ := typeDefinition_ok_inv dn ctx ctx' h
        subst hctx
        exact ⟨fun hs => isSome_flookup_fset _ _ _ _ hs, fun hs => hs⟩
    | extension te =>
      cases te with
      | schema se =>
        obtain ⟨hroot, htd, _⟩ := schemaExtension_ok_inv se ctx ctx' h
        exact ⟨fun hs => htd ▸ hs, fun _ => hroot⟩
      | type tex =>
        obtain ⟨_, v, hctx⟩ := typeExtension_ok_inv tex ctx ctx' h
        subst hctx
        exact ⟨fun hs => isSome_flookup_fset _ _ _ _ hs, fun hs => hs⟩

theorem processDocument_mono (l : Document) (ctx ctx' : SchemaContext) (n : String)
    (h : processDocument l ctx = .ok ctx') :
    ((flookup ctx.typeDefinitions n).isSome → (flookup ctx'.typeDefinitions n).isSome) ∧
    (ctx.rootOperationTypes.isSome → ctx'.rootOperationTypes.isSome) := by
  induction l generalizing ctx with
  | nil =>
    simp only [processDocument] at h
    cases h
    exact ⟨id, id⟩
  | cons d rest ih =>
    simp only [processDocument] at h
    cases hp : processOne d ctx with
    | error e => rw [hp] at h; cases h
    | ok cmid =>
      rw [hp] at h
      obtain ⟨h1, h2⟩ := processOne_mono d ctx cmid n hp
      obtain ⟨h1', h2'⟩ := ih cmid h
      exact ⟨fun hs => h1' (h1 hs), fun hs => h2' (h2 hs)⟩

theorem processOne_preserves_none (d : DefinitionNode) (ctx ctx' : SchemaContext) (n : String)
    (h : processOne d ctx = .ok ctx') (hd : definesTypeNamed d n = false)
    (h0 : flookup ctx.typeDefinitions n = none) :
    flookup ctx'.typeDefinitions n = none := by
  cases d with
  | executable e => cases h
  | typeSystem t =>
    cases t with
    | definition td =>
      cases td with
      | schema s =>
        obtain ⟨_, _, htd, _⟩ := schemaDefinition_ok_inv s ctx ctx' h
        rw [htd]; exact h0
      | directive dd =>
        obtain ⟨_, htd⟩ := directiveDefinition_ok_inv dd ctx ctx' h
        rw [htd]; exact h0
      | type dn =>
        obtain ⟨_, v, hctx⟩ := typeDefinition_ok_inv dn ctx ctx' h
        subst hctx
        have hne : n ≠ typeDefinitionName dn := by
          simp only [definesTypeNamed] at hd
          intro he
          rw [he] at hd
          simp at hd
        simp only
        rw [flookup_fset_ne _ _ _ _ hne]
        exact h0
    | extension te =>
      cases te with
      | schema se =>
        obtain ⟨_, htd, _⟩ := schemaExtension_ok_inv se ctx ctx' h
        rw [htd]; exact h0
      | type tex =>
        obtain ⟨hsome, v, hctx⟩ := typeExtension_ok_inv tex ctx ctx' h
        subst hctx
        have hne : n ≠ typeExtensionName tex := by
          intro he
          rw [← he, h0] at hsome
          cases hsome
        simp only
        rw [flookup_fset_ne _ _ _ _ hne]
        exact h0

theorem processDocument_preserves_none (l : Document) (ctx ctx' : SchemaContext) (n : String)
    (h : processDocument l ctx = .ok ctx') (hall : ∀ d ∈ l, definesTypeNamed d n = false)
    (h0 : flookup ctx.typeDefinitions n = none) :
    flookup ctx'.typeDefinitions n = none := by
  induction l generalizing ctx with
  | nil => simp only [processDocument] at h; cases h; exact h0
  | cons d rest ih =>
    simp only [processDocument] at h
    cases hp : processOne d ctx with
    | error e => rw [hp] at h; cases h
    | ok cmid =>
      rw [hp] at h
      exact ih cmid h (fun x hx => hall x (List.mem_cons_of_mem d hx))
        (processOne_preserves_none d ctx cmid n hp (hall d (List.mem_cons_self d rest)) h0)

/- ### Assembly helpers -/

theorem processDocument_cons_ok_inv (d : DefinitionNode) (rest : Document)
    (ctx ctx' : SchemaContext) (h : processDocument (d :: rest) ctx = .ok ctx') :
    ∃ b, processOne d ctx = .ok b ∧ processDocument rest b = .ok ctx' := by
  simp only [processDocument] at h
  cases hp : processOne d ctx with
  | error e => rw [hp] at h; cases h
  | ok b => rw [hp] at h; exact ⟨b, rfl, h⟩

theorem analyzeSchema_append_step_error (pre rest : Document) (d : DefinitionNode)
    (ctx : SchemaContext) (e : Error)
    (hpre : processDocument pre initialContext = .ok ctx)
    (hstep : processOne d ctx = .error e) :
    analyzeSchema (pre ++ d :: rest) = .error e := by
  apply analyzeSchema_error_of_process
  rw [processDocument_append_of_ok pre (d :: rest) initialContext ctx hpre]
  exact processDocument_cons_error d rest ctx e hstep

theorem processOperationDocument_append_of_ok (pre l₂ : Document) (c ctx : OperationContext)
    (h : processOperationDocument pre c = .ok ctx) :
    processOperationDocument (pre ++ l₂) c = processOperationDocument l₂ ctx := by
  induction pre generalizing c with
  | nil => simp only [processOperationDocument] at h; cases h; rfl
  | cons d rest ih =>
    simp only [processOperationDocument] at h ⊢
    cases hp : processOperationOne d c with
    | error e => rw [hp] at h; cases h
    | ok c' => rw [hp] at h; exact ih c' h

theorem analyzeOperation_append_step_error (pre rest : Document) (d : DefinitionNode)
    (ctx : OperationContext) (e : Error)
    (hpre : processOperationDocument pre initialOperationContext = .ok ctx)
    (hstep : processOperationOne d ctx = .error e) :
    analyzeOperation (pre ++ d :: rest) = .error e := by
  unfold analyzeOperation operation
  rw [processOperationDocument_append_of_ok pre (d :: rest) initialOperationContext ctx hpre]
  simp only [processOperationDocument, hstep]

theorem typeExtension_kind_mismatch (e : TypeExtensionNode) (ctx : SchemaContext)
    (td : TypeDefinition)
    (hl : flookup ctx.typeDefinitions (typeExtensionName e) = some td)
    (hk : typeDefinitionKind td ≠ typeExtensionKind e) :
    typeExtension e ctx =
      .error ⟨"Type extension for type with different type " ++ typeExtensionName e⟩ := by
  unfold typeExtension
  simp only [hl]
  cases e <;> cases td <;> first
    | exact absurd rfl hk
    | rfl

/- ### Claim theorems -/

/-- C2 counterexample: the empty document contains no SchemaDefinition yet
`analyzeSchema` does not return the failure `No SchemaDefinition` (it
succeeds with an empty root-operation mapping). -/
theorem c2_counterexample :
    analyzeSchema ([] : Document) ≠ .error ⟨"No SchemaDefinition"⟩ := by
  intro h
  cases h

/-- C2 (amended): for a document whose entries all process successfully and
which never initializes the root-operation mapping (no SchemaDefinition and
no SchemaExtension), `analyzeSchema` does not fail at all: it succeeds and
the resulting `rootOperationTypes` mapping is empty.  The core analyzer
never produces a `No SchemaDefinition` failure. -/
theorem c2_no_schema_definition_succeeds (doc : Document) (ctx : SchemaContext)
    (hproc : processDocument doc initialContext = .ok ctx)
    (hnone : ctx.rootOperationTypes = none) :
    analyzeSchema doc = .ok
      { description := ctx.description
        rootOperationTypes := []
        schemaDirectives := ctx.schemaDirectives
        directiveDefinitions := ctx.directiveDefinitions
        typeDefinitions := ctx.typeDefinitions } := by
  rw [analyzeSchema_ok_of_process doc ctx hproc]
  simp [mkSchema, hnone]

/-- Witness for C2: the empty document analyzed concretely. -/
theorem c2_witness :
    analyzeSchema ([] : Document) = .ok
      { description := none
        rootOperationTypes := []
        schemaDirectives := []
        directiveDefinitions := []
        typeDefinitions := [] } :=
  c2_no_schema_definition_succeeds [] initialContext rfl rfl

/-- C5: a second `TypeDefinition` of any kind sharing a name with an
earlier one makes `analyzeSchema` fail with the duplicate-type-definition
error, because every type definition is first checked against the single
shared `typeDefinitions` map. -/
theorem c5_duplicate_type_definition (pre mid rest : Document)
    (d1 d2 : TypeDefinitionNode) (ctx : SchemaContext)
    (hname : typeDefinitionName d1 = typeDefinitionName d2)
    (hproc : processDocument
      (pre ++ DefinitionNode.typeSystem (.definition (.type d1)) :: mid) initialContext = .ok ctx) :
    analyzeSchema (pre ++ DefinitionNode.typeSystem (.definition (.type d1)) ::
        (mid ++ DefinitionNode.typeSystem (.definition (.type d2)) :: rest)) =
      .error ⟨"Multiple TypeDefinition for " ++ typeDefinitionName d2⟩ := by
  obtain ⟨a, hpre, hrest⟩ := processDocument_ok_split pre _ initialContext ctx hproc
  obtain ⟨b, hstep, hmid⟩ := processDocument_cons_ok_inv _ mid a ctx hrest
  have hb : (flookup b.typeDefinitions (typeDefinitionName d1)).isSome := by
    obtain ⟨_, v, hctx⟩ := typeDefinition_ok_inv d1 a b hstep
    subst hctx
    simp only
    rw [flookup_fset_self]
    rfl
  have hctx : (flookup ctx.typeDefinitions (typeDefinitionName d2)).isSome := by
    rw [← hname]
    exact (processDocument_mono mid b ctx (typeDefinitionName d1) hmid).1 hb
  have heq : pre ++ DefinitionNode.typeSystem (.definition (.type d1)) ::
      (mid ++ DefinitionNode.typeSystem (.definition (.type d2)) :: rest) =
      (pre ++ DefinitionNode.typeSystem (.definition (.type d1)) :: mid) ++
        DefinitionNode.typeSystem (.definition (.type d2)) :: rest := by
    simp
  rw [heq]
  apply analyzeSchema_append_step_error _ _ _ ctx _ hproc
  show typeDefinition d2 ctx = _
  unfold typeDefinition
  rw [if_pos hctx]

/-- C6: a document with two SchemaDefinition entries fails with
`Multiple SchemaDefinition` at the second one, wherever the two occur. -/
theorem c6_multiple_schema_definition (pre mid rest : Document)
    (s1 s2 : SchemaDefinitionNode) (ctx : SchemaContext)
    (hproc : processDocument
      (pre ++ DefinitionNode.typeSystem (.definition (.schema s1)) :: mid) initialContext
      = .ok ctx) :
    analyzeSchema (pre ++ DefinitionNode.typeSystem (.definition (.schema s1)) ::
        (mid ++ DefinitionNode.typeSystem (.definition (.schema s2)) :: rest)) =
      .error ⟨"Multiple SchemaDefinition"⟩ := by
  obtain ⟨a, hpre, hrest⟩ := processDocument_ok_split pre _ initialContext ctx hproc
  obtain ⟨b, hstep, hmid⟩ := processDocument_cons_ok_inv _ mid a ctx hrest
  have hb : b.rootOperationTypes.isSome = true :=
    (schemaDefinition_ok_inv s1 a b hstep).2.1
  have hctx : ctx.rootOperationTypes.isSome = true :=
    (processDocument_mono mid b ctx "" hmid).2 hb
  have heq : pre ++ DefinitionNode.typeSystem (.definition (.schema s1)) ::
      (mid ++ DefinitionNode.typeSystem (.definition (.schema s2)) :: rest) =
      (pre ++ DefinitionNode.typeSystem (.definition (.schema s1)) :: mid) ++
        DefinitionNode.typeSystem (.definition (.schema s2)) :: rest := by
    simp
  rw [heq]
  apply analyzeSchema_append_step_error _ _ _ ctx _ hproc
  show schemaDefinition s2 ctx = _
  unfold schemaDefinition
  rw [if_pos hctx]

/-- C10: a SchemaExtension before the (only) SchemaDefinition makes the
later definition fail as `Multiple SchemaDefinition`: the extension lazily
initializes the root-operation mapping to an (always truthy) object, which
the definition then mistakes for an earlier definition. -/
theorem c10_extension_then_definition (pre mid rest : Document)
    (e : SchemaExtensionNode) (s : SchemaDefinitionNode) (ctx : SchemaContext)
    (hproc : processDocument
      (pre ++ DefinitionNode.typeSystem (.extension (.schema e)) :: mid) initialContext
      = .ok ctx) :
    analyzeSchema (pre ++ DefinitionNode.typeSystem (.extension (.schema e)) ::
        (mid ++ DefinitionNode.typeSystem (.definition (.schema s)) :: rest)) =
      .error ⟨"Multiple SchemaDefinition"⟩ := by
  obtain ⟨a, hpre, hrest⟩ := processDocument_ok_split pre _ initialContext ctx hproc
  obtain ⟨b, hstep, hmid⟩ := processDocument_cons_ok_inv _ mid a ctx hrest
  have hb : b.rootOperationTypes.isSome = true :=
    (schemaExtension_ok_inv e a b hstep).1
  have hctx : ctx.rootOperationTypes.isSome = true :=
    (processDocument_mono mid b ctx "" hmid).2 hb
  have heq : pre ++ DefinitionNode.typeSystem (.extension (.schema e)) ::
      (mid ++ DefinitionNode.typeSystem (.definition (.schema s)) :: rest) =
      (pre ++ DefinitionNode.typeSystem (.extension (.schema e)) :: mid) ++
        DefinitionNode.typeSystem (.definition (.schema s)) :: rest := by
    simp
  rw [heq]
  apply analyzeSchema_append_step_error _ _ _ ctx _ hproc
  show schemaDefinition s ctx = _
  unfold schemaDefinition
  rw [if_pos hctx]

/-- C3: a type extension whose name has no earlier type definition fails
`Type extension before type definition for type <name>`; a type extension
whose declared kind differs from the existing definition of that name fails
with the kind-mismatch error. -/
theorem c3_type_extension_errors :
    (∀ (pre rest : Document) (e : TypeExtensionNode) (ctx : SchemaContext),
       processDocument pre initialContext = .ok ctx →
       (∀ d ∈ pre, definesTypeNamed d (typeExtensionName e) = false) →
       analyzeSchema (pre ++ DefinitionNode.typeSystem (.extension (.type e)) :: rest) =
         .error ⟨"Type extension before type definition for type " ++ typeExtensionName e⟩)
  ∧ (∀ (pre rest : Document) (e : TypeExtensionNode) (ctx : SchemaContext)
       (td : TypeDefinition),
       processDocument pre initialContext = .ok ctx →
       flookup ctx.typeDefinitions (typeExtensionName e) = some td →
       typeDefinitionKind td ≠ typeExtensionKind e →
       analyzeSchema (pre ++ DefinitionNode.typeSystem (.extension (.type e)) :: rest) =
         .error ⟨"Type extension for type with different type " ++ typeExtensionName e⟩) := by
  constructor
  · intro pre rest e ctx hproc hnodefs
    have hnone : flookup ctx.typeDefinitions (typeExtensionName e) = none :=
      processDocument_preserves_none pre initialContext ctx (typeExtensionName e)
        hproc hnodefs rfl
    apply analyzeSchema_append_step_error pre rest _ ctx _ hproc
    show typeExtension e ctx = _
    unfold typeExtension
    simp only [hnone]
  · intro pre rest e ctx td hproc hl hk
    apply analyzeSchema_append_step_error pre rest _ ctx _ hproc
    show typeExtension e ctx = _
    exact typeExtension_kind_mismatch e ctx td hl hk

/-- Witness for C3: `extend scalar Foo` with no prior definition fails with
the before-definition error, and `extend object Foo` after `scalar Foo`
fails with the kind-mismatch error. -/
theorem c3_witness :
    analyzeSchema [DefinitionNode.typeSystem (.extension (.type (.scalar ⟨"Foo", none⟩)))] =
      .error ⟨"Type extension before type definition for type Foo"⟩ ∧
    analyzeSchema
      [ DefinitionNode.typeSystem (.definition (.type (.scalar ⟨"Foo", none, none⟩))),
        DefinitionNode.typeSystem (.extension (.type (.object ⟨"Foo", none, none, none⟩))) ] =
      .error ⟨"Type extension for type with different type Foo"⟩ := by
  constructor
  · exact c3_type_extension_errors.1 [] [] (.scalar ⟨"Foo", none⟩) initialContext rfl
      (by intro d hd; cases hd)
  · exact c3_type_extension_errors.2
      [DefinitionNode.typeSystem (.definition (.type (.scalar ⟨"Foo", none, none⟩)))] []
      (.object ⟨"Foo", none, none, none⟩) _ (.scalar "Foo" none []) rfl rfl (by decide)

/-- C7 (code evaluation): `type Foo implements A & A` does fail, but the
message interpolates the definition description rather than the type name
(`Duplicate implements on type undefined`); the cross definition/extension
duplicate `type Foo implements A` + `extend type Foo implements A` fails
with the extension label, which does cite the name. -/
theorem c7_implements_label :
    analyzeSchema
      [DefinitionNode.typeSystem (.definition (.type (.object
        ⟨"Foo", none, none, some ["A", "A"], none⟩)))] =
      .error ⟨"Duplicate implements on type undefined"⟩ ∧
    analyzeSchema
      [ DefinitionNode.typeSystem (.definition (.type (.object
          ⟨"Foo", none, none, some ["A"], none⟩))),
        DefinitionNode.typeSystem (.extension (.type (.object
          ⟨"Foo", none, some ["A"], none⟩))) ] =
      .error ⟨"Duplicate implements on type Foo extension"⟩ := by
  constructor
  · rfl
  · rfl

/-- C8: the document for `schema { query: Query } type Query { hello: String }`
succeeds; `query` is bound to `Query`, the `Query` definition is tagged
`object`, and its `hello` field is present with the parsed type node
preserved unchanged. -/
theorem c8_hello_schema :
    ∃ s, analyzeSchema
        [ DefinitionNode.typeSystem (.definition (.schema
            ⟨none, [⟨OperationType.query, "Query"⟩], none⟩)),
          DefinitionNode.typeSystem (.definition (.type (.object
            ⟨"Query", none, none, none,
              some [⟨none, "hello", none, GType.named "String", none⟩]⟩)))] = .ok s ∧
      flookup s.rootOperationTypes OperationType.query = some "Query" ∧
      ∃ td, flookup s.typeDefinitions "Query" = some td ∧
        typeDefinitionKind td = "object" ∧
        ∃ f, flookup (fieldsOf td) "hello" = some f ∧ f.type = GType.named "String" := by
  refine ⟨_, rfl, rfl, _, rfl, rfl, _, rfl, rfl⟩

/-- C9: feeding a document entry of the wrong kind is an error in both
directions: `analyzeSchema` fails on an executable entry with
`ExecutableDocument in Schema`, and `analyzeOperation` fails on a
type-system entry with `TypeSystemDefinitionOrExtension in Operation`. -/
theorem c9_document_kind_misuse :
    (∀ (pre rest : Document) (e : ExecutableDefinitionNode) (ctx : SchemaContext),
       processDocument pre initialContext = .ok ctx →
       analyzeSchema (pre ++ DefinitionNode.executable e :: rest) =
         .error ⟨"ExecutableDocument in Schema"⟩)
  ∧ (∀ (pre rest : Document) (t : TypeSystemDefinitionOrExtension) (octx : OperationContext),
       processOperationDocument pre initialOperationContext = .ok octx →
       analyzeOperation (pre ++ DefinitionNode.typeSystem t :: rest) =
         .error ⟨"TypeSystemDefinitionOrExtension in Operation"⟩) := by
  constructor
  · intro pre rest e ctx hproc
    exact analyzeSchema_append_step_error pre rest _ ctx _ hproc rfl
  · intro pre rest t octx hproc
    exact analyzeOperation_append_step_error pre rest _ octx _ hproc rfl

/-- Witness for C9: both directions at concrete one-entry documents. -/
theorem c9_witness :
    analyzeSchema [DefinitionNode.executable .fragment] =
      .error ⟨"ExecutableDocument in Schema"⟩ ∧
    analyzeOperation [DefinitionNode.typeSystem (.definition (.schema ⟨none, [], none⟩))] =
      .error ⟨"TypeSystemDefinitionOrExtension in Operation"⟩ := by
  constructor
  · exact c9_document_kind_misuse.1 [] [] .fragment initialContext rfl
  · exact c9_document_kind_misuse.2 [] [] (.definition (.schema ⟨none, [], none⟩))
      initialOperationContext rfl

/- ### Root-operation binding lemmas -/

theorem bindRootOps_ok_of_nodup (bs : List RootOperationTypeDefinition)
    (m : List (OperationType × String))
    (hnd : (bs.map (fun b => b.operationType)).Nodup)
    (hfree : ∀ b ∈ bs, truthyStr (flookup m b.operationType) = false) :
    ∃ m', bindRootOps bs m = .ok m' ∧
      (∀ b ∈ bs, flookup m' b.operationType = some b.type) ∧
      (∀ op, op ∉ bs.map (fun b => b.operationType) → flookup m' op = flookup m op) := by
  induction bs generalizing m with
  | nil => exact ⟨m, rfl, by simp, fun op _ => rfl⟩
  | cons b rest ih =>
    simp only [List.map_cons, List.nodup_cons] at hnd
    obtain ⟨hb_notin, hnd'⟩ := hnd
    have hfree_b := hfree b (List.mem_cons_self _ _)
    have hfree' : ∀ x ∈ rest,
        truthyStr (flookup (fset m b.operationType b.type) x.operationType) = false := by
      intro x hx
      have hne : x.operationType ≠ b.operationType := by
        intro he
        exact hb_notin (he ▸ List.mem_map_of_mem _ hx)
      rw [flookup_fset_ne _ _ _ _ hne]
      exact hfree x (List.mem_cons_of_mem _ hx)
    obtain ⟨m', hm', hlook, hpres⟩ := ih (fset m b.operationType b.type) hnd' hfree'
    refine ⟨m', ?_, ?_, ?_⟩
    · unfold bindRootOps
      rw [if_neg (by simp [hfree_b])]
      exact hm'
    · intro x hx
      rcases List.mem_cons.mp hx with he | hx'
      · subst he
        rw [hpres _ hb_notin]
        exact flookup_fset_self _ _ _
      · exact hlook x hx'
    · intro op hop
      simp only [List.map_cons, List.mem_cons] at hop
      push_neg at hop
      rw [hpres op hop.2, flookup_fset_ne _ _ _ _ hop.1]

/-- C1: a SchemaExtension processed while the root-operation mapping is
still absent does not fail (lazy initialization: extension before
definition is legal for schema), and its root-operation bindings end up in
the resulting schema's mapping. -/
theorem c1_schema_extension_lazy_init (pre : Document) (e : SchemaExtensionNode)
    (ctx : SchemaContext) (ds : List Directive)
    (hproc : processDocument pre initialContext = .ok ctx)
    (hnone : ctx.rootOperationTypes = none)
    (hnd : ((e.rootOperationTypeDefinitions.getD []).map (fun b => b.operationType)).Nodup)
    (hdirs : directives e.directives "schema definition" = .ok ds) :
    ∃ s, analyzeSchema (pre ++ [DefinitionNode.typeSystem (.extension (.schema e))]) = .ok s ∧
      ∀ b ∈ e.rootOperationTypeDefinitions.getD [],
        flookup s.rootOperationTypes b.operationType = some b.type := by
  obtain ⟨m', hbind, hlook, hpres⟩ :=
    bindRootOps_ok_of_nodup (e.rootOperationTypeDefinitions.getD []) [] hnd
      (by intro b _; rfl)
  have hstep : schemaExtension e ctx = .ok { ctx with
      rootOperationTypes := some m'
      schemaDirectives := ctx.schemaDirectives ++ ds } := by
    unfold schemaExtension
    rw [hnone]
    simp only [Option.getD_none, hbind, except_bind_ok, hdirs, except_pure]
  have hdoc : processDocument (pre ++ [DefinitionNode.typeSystem (.extension (.schema e))])
      initialContext = .ok { ctx with
        rootOperationTypes := some m'
        schemaDirectives := ctx.schemaDirectives ++ ds } := by
    rw [processDocument_append_of_ok pre _ initialContext ctx hproc]
    simp only [processDocument]
    rw [show processOne (DefinitionNode.typeSystem (.extension (.schema e))) ctx =
      schemaExtension e ctx from rfl]
    rw [hstep]
  refine ⟨_, analyzeSchema_ok_of_process _ _ hdoc, ?_⟩
  intro b hb
  simpa [mkSchema] using hlook b hb

/-- Witness for C1: a lone schema extension binding `query` analyzed
concretely. -/
theorem c1_witness :
    ∃ s, analyzeSchema [DefinitionNode.typeSystem (.extension (.schema
        ⟨some [⟨OperationType.query, "Q"⟩], none⟩))] = .ok s ∧
      ∀ b ∈ [(⟨OperationType.query, "Q"⟩ : RootOperationTypeDefinition)],
        flookup s.rootOperationTypes b.operationType = some b.type :=
  c1_schema_extension_lazy_init [] ⟨some [⟨OperationType.query, "Q"⟩], none⟩
    initialContext [] rfl rfl (by decide) rfl

/-- Witness for C5: a scalar then an object definition both named `Foo`. -/
theorem c5_witness :
    analyzeSchema
      [ DefinitionNode.typeSystem (.definition (.type (.scalar ⟨"Foo", none, none⟩))),
        DefinitionNode.typeSystem (.definition (.type (.object
          ⟨"Foo", none, none, none, none⟩))) ] =
      .error ⟨"Multiple TypeDefinition for Foo"⟩ :=
  c5_duplicate_type_definition [] [] [] (.scalar ⟨"Foo", none, none⟩)
    (.object ⟨"Foo", none, none, none, none⟩) _ rfl rfl

/-- Witness for C6: two empty schema definitions. -/
theorem c6_witness :
    analyzeSchema
      [ DefinitionNode.typeSystem (.definition (.schema ⟨none, [], none⟩)),
        DefinitionNode.typeSystem (.definition (.schema ⟨none, [], none⟩)) ] =
      .error ⟨"Multiple SchemaDefinition"⟩ :=
  c6_multiple_schema_definition [] [] [] ⟨none, [], none⟩ ⟨none, [], none⟩ _ rfl

/-- Witness for C10: a schema extension followed by the only schema
definition. -/
theorem c10_witness :
    analyzeSchema
      [ DefinitionNode.typeSystem (.extension (.schema ⟨none, none⟩)),
        DefinitionNode.typeSystem (.definition (.schema ⟨none, [], none⟩)) ] =
      .error ⟨"Multiple SchemaDefinition"⟩ :=
  c10_extension_then_definition [] [] [] ⟨none, none⟩ ⟨none, [], none⟩ _ rfl

/- ### Field-merge characterization lemmas (object/interface extensions) -/

theorem isSome_flookup_of_mem {β : Type} (m : List (String × β)) (k : String)
    (h : k ∈ m.map Prod.fst) : (flookup m k).isSome := by
  induction m with
  | nil => cases h
  | cons p rest ih =>
    obtain ⟨k₀, v₀⟩ := p
    by_cases h0 : k₀ = k
    · simp [flookup, h0]
    · simp only [List.map_cons, List.mem_cons] at h
      rcases h with he | hm
      · exact absurd he.symm h0
      · simp only [flookup, if_neg h0]
        exact ih hm

theorem noDuplicate_ok_eq (strs : List String) (lbl : String) (out : List String)
    (h : noDuplicate strs lbl = .ok out) : out = strs ∧ strs.Nodup := by
  unfold noDuplicate at h
  split at h
  · cases h
  · rename_i hlen
    cases h
    push_neg at hlen
    have hsub := strs.dedup_sublist
    have heq : strs.dedup = strs := hsub.eq_of_length hlen
    exact ⟨rfl, heq ▸ strs.nodup_dedup⟩

theorem noDuplicate_ok_of_nodup (strs : List String) (lbl : String) (h : strs.Nodup) :
    noDuplicate strs lbl = .ok strs := by
  unfold noDuplicate
  rw [if_neg]
  simp [List.dedup_eq_self.mpr h]

theorem nodup_append_swap (a b c : List String) (h : (a ++ b ++ c).Nodup) :
    (a ++ c ++ b).Nodup := by
  have hperm : (a ++ b ++ c).Perm (a ++ c ++ b) := by
    rw [List.append_assoc, List.append_assoc]
    exact List.Perm.append_left a (List.perm_append_comm)
  exact hperm.nodup h

theorem normFields_fst (fds : List PFieldDefinition) (lbl : String)
    (delta : List (String × FieldDefinition)) (h : normFields fds lbl = .ok delta) :
    delta.map Prod.fst = fds.map (fun fd => fd.name) := by
  induction fds generalizing delta with
  | nil =>
    simp only [normFields] at h
    cases h
    rfl
  | cons fd rest ih =>
    simp only [normFields] at h
    obtain ⟨f, hf, h⟩ := except_bind_ok_inv h
    obtain ⟨xs, hxs, h⟩ := except_bind_ok_inv h
    rw [except_pure] at h
    cases h
    simp [ih xs hxs]

theorem normFields_ok_each (fds : List PFieldDefinition) (lbl : String)
    (delta : List (String × FieldDefinition)) (h : normFields fds lbl = .ok delta) :
    ∀ fd ∈ fds, ∃ f, fieldDefinition fd ("field " ++ fd.name ++ " on " ++ lbl) = .ok f := by
  induction fds generalizing delta with
  | nil => intro fd hfd; cases hfd
  | cons fd0 rest ih =>
    simp only [normFields] at h
    obtain ⟨f, hf, h⟩ := except_bind_ok_inv h
    obtain ⟨xs, hxs, h⟩ := except_bind_ok_inv h
    intro fd hfd
    rcases List.mem_cons.mp hfd with he | hm
    · exact ⟨f, he ▸ hf⟩
    · exact ih xs hxs fd hm

theorem fieldLoop_ok_inv (fds : List PFieldDefinition) (m m' : FieldsDefinition) (lbl : String)
    (h : fieldLoop fds m lbl = .ok m') :
    ∃ delta, normFields fds lbl = .ok delta ∧ m' = m ++ delta ∧
      (fds.map (fun fd => fd.name)).Nodup ∧
      (∀ n ∈ fds.map (fun fd => fd.name), flookup m n = none) := by
  induction fds generalizing m with
  | nil =>
    simp only [fieldLoop] at h
    cases h
    exact ⟨[], rfl, by simp, by simp, by simp⟩
  | cons fd rest ih =>
    simp only [fieldLoop] at h
    split at h
    · cases h
    · rename_i hfree
      have hmnone : flookup m fd.name = none :=
        Option.not_isSome_iff_eq_none.mp (by simpa using hfree)
      obtain ⟨f, hf, h⟩ := except_bind_ok_inv h
      obtain ⟨delta, hnorm, hm', hnd, hdisj⟩ := ih (fset m fd.name f) h
      have hset : fset m fd.name f = m ++ [(fd.name, f)] := fset_eq_append m fd.name f hmnone
      have hnotin : fd.name ∉ rest.map (fun x => x.name) := by
        intro hmem
        have := hdisj fd.name hmem
        rw [flookup_fset_self] at this
        cases this
      refine ⟨(fd.name, f) :: delta, ?_, ?_, ?_, ?_⟩
      · simp only [normFields, hf, except_bind_ok, hnorm, except_pure]
      · rw [hm', hset, List.append_assoc]
        rfl
      · simp only [List.map_cons, List.nodup_cons]
        exact ⟨hnotin, hnd⟩
      · intro n hn
        simp only [List.map_cons, List.mem_cons] at hn
        rcases hn with he | hm
        · exact he ▸ hmnone
        · have hne : n ≠ fd.name := by
            intro he
            have := hdisj n hm
            rw [he, flookup_fset_self] at this
            cases this
          have := hdisj n hm
          rwa [flookup_fset_ne _ _ _ _ hne] at this

theorem fieldLoop_ok_build (fds : List PFieldDefinition) (m : FieldsDefinition) (lbl : String)
    (delta : List (String × FieldDefinition))
    (hnorm : normFields fds lbl = .ok delta)
    (hnd : (fds.map (fun fd => fd.name)).Nodup)
    (hdisj : ∀ n ∈ fds.map (fun fd => fd.name), flookup m n = none) :
    fieldLoop fds m lbl = .ok (m ++ delta) := by
  induction fds generalizing m delta with
  | nil =>
    simp only [normFields] at hnorm
    cases hnorm
    simp [fieldLoop]
  | cons fd rest ih =>
    simp only [normFields] at hnorm
    obtain ⟨f, hf, hr⟩ := except_bind_ok_inv hnorm
    obtain ⟨xs, hxs, hr⟩ := except_bind_ok_inv hr
    rw [except_pure] at hr
    cases hr
    simp only [List.map_cons, List.nodup_cons] at hnd
    have hmnone : flookup m fd.name = none :=
      hdisj fd.name (by simp)
    simp only [fieldLoop]
    rw [if_neg (by simp [hmnone])]
    simp only [hf, except_bind_ok]
    have hdisj' : ∀ n ∈ rest.map (fun x => x.name), flookup (fset m fd.name f) n = none := by
      intro n hn
      have hne : n ≠ fd.name := by
        intro he
        exact hnd.1 (he ▸ hn)
      rw [flookup_fset_ne _ _ _ _ hne]
      exact hdisj n (by simp [hn])
    have := ih (fset m fd.name f) xs hxs hnd.2 hdisj'
    rw [this, fset_eq_append m fd.name f hmnone, List.append_assoc]
    rfl

theorem fieldLoop_error_of_mem (fds : List PFieldDefinition) (m : FieldsDefinition) (lbl : String)
    (hex : ∃ fd ∈ fds, (flookup m fd.name).isSome = true)
    (hall : ∀ fd ∈ fds, ∃ f, fieldDefinition fd ("field " ++ fd.name ++ " on " ++ lbl) = .ok f) :
    fieldLoop fds m lbl = .error ⟨"Multiple field definition on " ++ lbl⟩ := by
  induction fds generalizing m with
  | nil =>
    obtain ⟨fd, hfd, _⟩ := hex
    cases hfd
  | cons fd0 rest ih =>
    by_cases h0 : (flookup m fd0.name).isSome = true
    · simp only [fieldLoop]
      rw [if_pos h0]
    · simp only [fieldLoop]
      rw [if_neg h0]
      obtain ⟨f, hf⟩ := hall fd0 (List.mem_cons_self _ _)
      simp only [hf, except_bind_ok]
      apply ih
      · obtain ⟨fd, hfd, hsome⟩ := hex
        rcases List.mem_cons.mp hfd with he | hm
        · exact absurd (he ▸ hsome) h0
        · exact ⟨fd, hm, by
            have := isSome_flookup_fset m fd0.name fd.name f (by exact hsome)
            exact this⟩
      · intro fd hfd
        exact hall fd (List.mem_cons_of_mem _ hfd)

theorem flookup_append_none {β : Type} (m₁ m₂ : List (String × β)) (k : String)
    (h : flookup (m₁ ++ m₂) k = none) : flookup m₁ k = none ∧ flookup m₂ k = none := by
  rw [flookup_append] at h
  cases h1 : flookup m₁ k with
  | some v => rw [h1] at h; cases h
  | none => rw [h1] at h; exact ⟨rfl, h⟩

theorem flookup_append_none_of {β : Type} (m₁ m₂ : List (String × β)) (k : String)
    (h1 : flookup m₁ k = none) (h2 : flookup m₂ k = none) : flookup (m₁ ++ m₂) k = none := by
  rw [flookup_append, h1]
  exact h2

theorem flookup_append_isSome_right {β : Type} (m₁ m₂ : List (String × β)) (k : String)
    (h : (flookup m₂ k).isSome) : (flookup (m₁ ++ m₂) k).isSome := by
  rw [flookup_append]
  cases h1 : flookup m₁ k with
  | some v => rfl
  | none => exact h

theorem flookup_append_comm {β : Type} (f0 d1 d2 : List (String × β)) (n : String)
    (hdisj : ∀ k ∈ d1.map Prod.fst, k ∉ d2.map Prod.fst) :
    flookup (f0 ++ d1 ++ d2) n = flookup (f0 ++ d2 ++ d1) n := by
  cases h0 : flookup f0 n with
  | some v => simp [flookup_append, h0]
  | none =>
    cases h1 : flookup d1 n with
    | some v1 =>
      have hn1 : n ∈ d1.map Prod.fst := mem_of_flookup_isSome _ _ (by simp [h1])
      have h2 : flookup d2 n = none := flookup_eq_none_of_not_mem _ _ (hdisj n hn1)
      simp [flookup_append, h0, h1, h2]
    | none => cases h2 : flookup d2 n <;> simp [flookup_append, h0, h1, h2]

theorem objectTypeExtension_ok_pieces (e : ObjectTypeExtension) (td td' : TypeDefinition)
    (h : objectTypeExtension e td = .ok td') :
    ∃ name desc dirs impls fields fields2 ds,
      td = .object name desc dirs impls fields ∧
      noDuplicate (impls ++ e.implementsInterfaces.getD [])
          ("implements on type " ++ e.name ++ " extension") =
        .ok (impls ++ e.implementsInterfaces.getD []) ∧
      fieldLoop (e.fieldsDefinition.getD []) fields "type typeSystem extension" = .ok fields2 ∧
      directives e.directives ("type " ++ e.name ++ " extension") = .ok ds ∧
      td' = .object name desc (dirs ++ ds) (impls ++ e.implementsInterfaces.getD []) fields2 := by
  cases td with
  | object name desc dirs impls fields =>
    unfold objectTypeExtension at h
    obtain ⟨impls', hi, h⟩ := except_bind_ok_inv h
    obtain ⟨fields2, hf, h⟩ := except_bind_ok_inv h
    obtain ⟨ds, hd, h⟩ := except_bind_ok_inv h
    rw [except_pure] at h
    cases h
    obtain ⟨heq, _⟩ := noDuplicate_ok_eq _ _ _ hi
    subst heq
    exact ⟨name, desc, dirs, impls, fields, fields2, ds, rfl, hi, hf, hd, rfl⟩
  | scalar name desc dirs => cases h
  | interface name desc dirs impls fields => cases h
  | union name desc dirs members => cases h
  | enum name desc dirs evs => cases h
  | inputObject name desc dirs ifd => cases h

theorem objectTypeExtension_build (e : ObjectTypeExtension) (name : String)
    (desc : Option String) (dirs : List Directive) (impls : List String)
    (fields fields2 : FieldsDefinition) (ds : List Directive)
    (hnd : (impls ++ e.implementsInterfaces.getD []).Nodup)
    (hf : fieldLoop (e.fieldsDefinition.getD []) fields "type typeSystem extension" = .ok fields2)
    (hd : directives e.directives ("type " ++ e.name ++ " extension") = .ok ds) :
    objectTypeExtension e (.object name desc dirs impls fields) =
      .ok (.object name desc (dirs ++ ds) (impls ++ e.implementsInterfaces.getD []) fields2) := by
  simp only [objectTypeExtension]
  rw [noDuplicate_ok_of_nodup _ _ hnd]
  simp only [except_bind_ok, hf, hd, except_pure]

/-- C4: on a base object type definition, two object-type extensions whose
added field sets are disjoint commute — if one order succeeds, so does the
other, and the final `fieldsDefinition` maps agree at every name; if the
two field sets overlap, the extension processed second fails with the
duplicate-field error in both orders (given the implements lists introduce
no duplicate of their own, which is what isolates the field overlap). -/
theorem c4_object_extension_commute :
    (∀ (td td1 td12 : TypeDefinition) (e1 e2 : ObjectTypeExtension),
       (∀ n ∈ extensionFieldNames e1, n ∉ extensionFieldNames e2) →
       objectTypeExtension e1 td = .ok td1 →
       objectTypeExtension e2 td1 = .ok td12 →
       ∃ td2 td21, objectTypeExtension e2 td = .ok td2 ∧
         objectTypeExtension e1 td2 = .ok td21 ∧
         ∀ n, flookup (fieldsOf td12) n = flookup (fieldsOf td21) n)
  ∧ (∀ (td td1 td2 : TypeDefinition) (e1 e2 : ObjectTypeExtension),
       (∃ n, n ∈ extensionFieldNames e1 ∧ n ∈ extensionFieldNames e2) →
       (implsOf td ++ e1.implementsInterfaces.getD [] ++
         e2.implementsInterfaces.getD []).Nodup →
       objectTypeExtension e1 td = .ok td1 →
       objectTypeExtension e2 td = .ok td2 →
       objectTypeExtension e2 td1 =
           .error ⟨"Multiple field definition on type typeSystem extension"⟩ ∧
         objectTypeExtension e1 td2 =
           .error ⟨"Multiple field definition on type typeSystem extension"⟩) := by
  constructor
  · intro td td1 td12 e1 e2 hdisj h1 h12
    simp only [extensionFieldNames] at hdisj
    obtain ⟨n0, desc, dirs, impls, f0, f1, ds1, htd, hi1, hf1, hd1, htd1⟩ :=
      objectTypeExtension_ok_pieces e1 td td1 h1
    subst htd
    subst htd1
    obtain ⟨n0', desc', dirs', impls', f1', f12, ds2, heq, hi12, hf12, hd2, htd12⟩ :=
      objectTypeExtension_ok_pieces e2 _ td12 h12
    injection heq with ha hb hc hd he
    subst ha
    subst hb
    subst hc
    subst hd
    subst he
    subst htd12
    have hnd12 : ((impls ++ e1.implementsInterfaces.getD []) ++
        e2.implementsInterfaces.getD []).Nodup := (noDuplicate_ok_eq _ _ _ hi12).2
    obtain ⟨delta1, hnorm1, hf1eq, hnd1names, hdisj1⟩ := fieldLoop_ok_inv _ _ _ _ hf1
    obtain ⟨delta2, hnorm2, hf12eq, hnd2names, hdisj12⟩ := fieldLoop_ok_inv _ _ _ _ hf12
    subst hf1eq
    subst hf12eq
    have hkeys1 := normFields_fst _ _ _ hnorm1
    have hkeys2 := normFields_fst _ _ _ hnorm2
    have hdisj2f0 : ∀ n ∈ (e2.fieldsDefinition.getD []).map (fun fd => fd.name),
        flookup f0 n = none := by
      intro n hn
      exact (flookup_append_none _ _ _ (hdisj12 n hn)).1
    have hnd2 : (impls ++ e2.implementsInterfaces.getD []).Nodup := by
      have hsub : List.Sublist (impls ++ e2.implementsInterfaces.getD [])
          (impls ++ (e1.implementsInterfaces.getD [] ++ e2.implementsInterfaces.getD [])) :=
        List.Sublist.append_left (List.sublist_append_right _ _) impls
      rw [List.append_assoc] at hnd12
      exact List.Nodup.sublist hsub hnd12
    have hb2 : objectTypeExtension e2 (.object n0 desc dirs impls f0) =
        .ok (.object n0 desc (dirs ++ ds2) (impls ++ e2.implementsInterfaces.getD [])
          (f0 ++ delta2)) :=
      objectTypeExtension_build e2 n0 desc dirs impls f0 (f0 ++ delta2) ds2 hnd2
        (fieldLoop_ok_build _ _ _ _ hnorm2 hnd2names hdisj2f0) hd2
    have hnd21 : ((impls ++ e2.implementsInterfaces.getD []) ++
        e1.implementsInterfaces.getD []).Nodup :=
      nodup_append_swap _ _ _ hnd12
    have hdisj1f02 : ∀ n ∈ (e1.fieldsDefinition.getD []).map (fun fd => fd.name),
        flookup (f0 ++ delta2) n = none := by
      intro n hn
      apply flookup_append_none_of
      · exact hdisj1 n hn
      · apply flookup_eq_none_of_not_mem
        rw [hkeys2]
        exact hdisj n hn
    have hb21 : objectTypeExtension e1 (.object n0 desc (dirs ++ ds2)
        (impls ++ e2.implementsInterfaces.getD []) (f0 ++ delta2)) =
        .ok (.object n0 desc ((dirs ++ ds2) ++ ds1)
          ((impls ++ e2.implementsInterfaces.getD []) ++ e1.implementsInterfaces.getD [])
          ((f0 ++ delta2) ++ delta1)) :=
      objectTypeExtension_build e1 n0 desc (dirs ++ ds2)
        (impls ++ e2.implementsInterfaces.getD []) (f0 ++ delta2) ((f0 ++ delta2) ++ delta1)
        ds1 hnd21 (fieldLoop_ok_build _ _ _ _ hnorm1 hnd1names hdisj1f02) hd1
    refine ⟨_, _, hb2, hb21, ?_⟩
    intro n
    simp only [fieldsOf]
    apply flookup_append_comm
    intro k hk1
    rw [hkeys2]
    rw [hkeys1] at hk1
    exact hdisj k hk1
  · intro td td1 td2 e1 e2 hov hI h1 h2
    obtain ⟨n0, desc, dirs, impls, f0, f1, ds1, htd, hi1, hf1, hd1, htd1⟩ :=
      objectTypeExtension_ok_pieces e1 td td1 h1
    subst htd
    subst htd1
    obtain ⟨n0', desc', dirs', impls', f0', f2, ds2, heq, hi2, hf2, hd2, htd2⟩ :=
      objectTypeExtension_ok_pieces e2 _ td2 h2
    injection heq with ha hb hc hd he
    subst ha
    subst hb
    subst hc
    subst hd
    subst he
    subst htd2
    simp only [implsOf] at hI
    obtain ⟨delta1, hnorm1, hf1eq, hnd1names, hdisj1⟩ := fieldLoop_ok_inv _ _ _ _ hf1
    obtain ⟨delta2, hnorm2, hf2eq, hnd2names, hdisj2⟩ := fieldLoop_ok_inv _ _ _ _ hf2
    subst hf1eq
    subst hf2eq
    have hkeys1 := normFields_fst _ _ _ hnorm1
    have hkeys2 := normFields_fst _ _ _ hnorm2
    obtain ⟨n, hn1, hn2⟩ := hov
    simp only [extensionFieldNames] at hn1 hn2
    constructor
    · have hex : ∃ fd ∈ e2.fieldsDefinition.getD [],
          (flookup (f0 ++ delta1) fd.name).isSome = true := by
        obtain ⟨fd, hfd, hfdn⟩ := List.mem_map.mp hn2
        refine ⟨fd, hfd, ?_⟩
        rw [hfdn]
        apply flookup_append_isSome_right
        exact isSome_flookup_of_mem delta1 n (hkeys1 ▸ hn1)
      have hall := normFields_ok_each _ _ _ hnorm2
      simp only [objectTypeExtension]
      rw [noDuplicate_ok_of_nodup _ _ hI]
      simp only [except_bind_ok]
      rw [fieldLoop_error_of_mem _ _ _ hex hall, except_bind_error]
      rfl
    · have hex : ∃ fd ∈ e1.fieldsDefinition.getD [],
          (flookup (f0 ++ delta2) fd.name).isSome = true := by
        obtain ⟨fd, hfd, hfdn⟩ := List.mem_map.mp hn1
        refine ⟨fd, hfd, ?_⟩
        rw [hfdn]
        apply flookup_append_isSome_right
        exact isSome_flookup_of_mem delta2 n (hkeys2 ▸ hn2)
      have hall := normFields_ok_each _ _ _ hnorm1
      simp only [objectTypeExtension]
      rw [noDuplicate_ok_of_nodup _ _ (nodup_append_swap _ _ _ hI)]
      simp only [except_bind_ok]
      rw [fieldLoop_error_of_mem _ _ _ hex hall, except_bind_error]
      rfl

/-- Witness for C4: on a bare object type `T`, extensions adding fields `a`
and `b` commute, and two extensions both adding `a` fail in either order. -/
theorem c4_witness :
    (∃ td2 td21,
      objectTypeExtension ⟨"T", none, none,
          some [⟨none, "b", none, GType.named "String", none⟩]⟩
          (.object "T" none [] [] []) = .ok td2 ∧
      objectTypeExtension ⟨"T", none, none,
          some [⟨none, "a", none, GType.named "String", none⟩]⟩ td2 = .ok td21 ∧
      ∀ n, flookup (fieldsOf (.object "T" none [] []
          [("a", ⟨none, "a", [], GType.named "String", []⟩),
           ("b", ⟨none, "b", [], GType.named "String", []⟩)])) n =
        flookup (fieldsOf td21) n) ∧
    (objectTypeExtension ⟨"T", none, none,
          some [⟨none, "a", none, GType.named "Int", none⟩]⟩
          (.object "T" none [] [] [("a", ⟨none, "a", [], GType.named "String", []⟩)]) =
        .error ⟨"Multiple field definition on type typeSystem extension"⟩ ∧
      objectTypeExtension ⟨"T", none, none,
          some [⟨none, "a", none, GType.named "String", none⟩]⟩
          (.object "T" none [] [] [("a", ⟨none, "a", [], GType.named "Int", []⟩)]) =
        .error ⟨"Multiple field definition on type typeSystem extension"⟩) := by
  constructor
  · exact c4_object_extension_commute.1 (.object "T" none [] [] []) _ _
      ⟨"T", none, none, some [⟨none, "a", none, GType.named "String", none⟩]⟩
      ⟨"T", none, none, some [⟨none, "b", none, GType.named "String", none⟩]⟩
      (by decide) rfl rfl
  · exact c4_object_extension_commute.2 (.object "T" none [] [] []) _ _
      ⟨"T", none, none, some [⟨none, "a", none, GType.named "String", none⟩]⟩
      ⟨"T", none, none, some [⟨none, "a", none, GType.named "Int", none⟩]⟩
      ⟨"a", by decide, by decide⟩ (by decide) rfl rfl

end Analyzer
